import Mathlib

/-!
Verification development for the gh-monit alert lifecycle cache and
history-derived analytics engine.

The development is a shallow embedding of the TypeScript core:

* `src/core/alerts.ts` — `normalizeAlerts`, `SEVERITY_ORDER`, `sortAlerts`,
  and the scheduler module bundled with it (`refreshAllRepos`, the cron
  callback of `startScheduler`).
* `src/core/db.ts` — `saveAlerts`, `getCachedAlerts`, `getRepoAlerts`,
  `getAllRepoSummaries`, `getTrendData`, `getMttrMetrics`,
  `getSlaViolations`, `DEFAULT_SLA_LIMITS`.
* `src/core/server.ts` — the `/api/repos/refresh-all` route body.

Modelling conventions, fixed once here:

* The three SQLite tables are plain lists. The `alerts` and `repo_sync`
  tables have list order standing for row order; an SQL upsert replaces the
  conflicting row in place, a plain insert appends. The `alert_history`
  table is append-only and list position stands for the AUTOINCREMENT id,
  so MIN(id) subqueries become first-occurrence searches.
* Timestamps that the code feeds to julianday() (`recorded_at`,
  `last_sync`, the value of julianday at the present moment) are modelled
  as rational numbers counting days, aligned so that an integer value is a
  UTC midnight. julianday differences equal differences of these numbers,
  and the SQL date() grouping key becomes the integer floor. Timestamps the
  code only stores and compares as strings (`created_at` and friends) stay
  optional strings.
* JavaScript string utilities are modelled on the character list of the
  string: `toLowerCase` as an ASCII lowering map, `localeCompare` as the
  code-point lexicographic comparison it performs on ASCII data.
* `Math.round(x * 10) / 10` rounds to one decimal; JavaScript
  `Math.round` is floor of x + 1/2.
* The JavaScript `Array.prototype.sort` (a stable comparison sort) and the
  SQL ORDER BY are modelled with `List.insertionSort`, which is stable; all
  verified statements about sort output are order-insensitive
  (`Pairwise`/`Perm`) or concrete.
-/

/-! ### JavaScript / SQL primitive helpers -/

/-- ASCII lowering of one character, the effect of `toLowerCase` on the
ASCII severities this system handles. -/
def lowerChar (c : Char) : Char :=
  if 'A' ≤ c ∧ c ≤ 'Z' then Char.ofNat (c.toNat + 32) else c

/-- Model of `String.prototype.toLowerCase` (ASCII range). -/
def asciiLower (s : String) : String := ⟨s.data.map lowerChar⟩

/-- Code-point lexicographic three-way comparison of character lists;
model of `localeCompare` on the ASCII timestamp strings it is applied to. -/
def charsCmp : List Char → List Char → Int
  | [], [] => 0
  | [], _ :: _ => -1
  | _ :: _, [] => 1
  | c :: cs, d :: ds =>
      if c.toNat < d.toNat then -1
      else if d.toNat < c.toNat then 1
      else charsCmp cs ds

/-- Model of `a.localeCompare(b)`. -/
def strCmp (a b : String) : Int := charsCmp a.data b.data

/-- JavaScript `Math.round`: floor of x + 1/2 (ties go up, also below 0). -/
def jsRound (x : ℚ) : ℤ := ⌊x + 1 / 2⌋

/-- `Math.round(x * 10) / 10`: round to one decimal place. -/
def round1 (x : ℚ) : ℚ := (jsRound (10 * x) : ℚ) / 10

/-- First-occurrence deduplication, the effect of `COUNT(DISTINCT ...)`
materialisation and of pivoting rows into a keyed map. -/
def dedupFirst {α : Type} [DecidableEq α] (l : List α) : List α :=
  l.foldl (fun acc x => if x ∈ acc then acc else acc ++ [x]) []

/-! ### Data model (`src/types.ts`, table shapes of `src/core/db.ts`) -/

/-- `NormalizedAlert` of `src/types.ts`, also the row shape of the
`alerts` table (one live row per (repo, alertNumber)). -/
structure NormalizedAlert where
  repo : String
  alertNumber : Int
  state : String
  severity : String
  packageName : Option String
  manifestPath : Option String
  ecosystem : Option String
  createdAt : Option String
  updatedAt : Option String
  dismissedAt : Option String
  fixedAt : Option String
  htmlUrl : Option String
  ghsaId : Option String
  cveId : Option String
  advisorySummary : Option String
  cvssScore : Option ℚ
  patchedVersion : Option String
  rawJson : String
deriving DecidableEq

/-- Row of the append-only `alert_history` table; list position stands for
the AUTOINCREMENT id. -/
structure HistoryEvent where
  repo : String
  alertNumber : Int
  state : String
  severity : String
  recordedAt : ℚ
  rawJson : String
deriving DecidableEq

/-- The persistent state: the three tables of the store. `repoSync` maps a
repo to its last sync timestamp. -/
structure Db where
  alerts : List NormalizedAlert
  history : List HistoryEvent
  repoSync : List (String × ℚ)
deriving DecidableEq

/-! ### Alert normalizer (`normalizeAlerts` in `src/core/alerts.ts`) -/

/-- The fields of `security_advisory` that the normalizer reads. -/
structure RawAdvisory where
  severity : Option String
  ghsaId : Option String
  cveId : Option String
  summary : Option String
  cvssScore : Option ℚ
deriving DecidableEq

/-- The fields of `security_vulnerability` that the normalizer reads. -/
structure RawVulnerability where
  severity : Option String
  firstPatchedVersion : Option String
deriving DecidableEq

/-- The fields of `dependency` that the normalizer reads. -/
structure RawDependency where
  packageName : Option String
  manifestPath : Option String
  ecosystem : Option String
deriving DecidableEq

/-- An opaque raw alert record, projected to the fields the normalizer
accesses. `rawText` stands for the JSON serialisation of the record that
`JSON.stringify(alert)` produces. -/
structure RawAlert where
  number : Option Int
  state : Option String
  securityAdvisory : Option RawAdvisory
  securityVulnerability : Option RawVulnerability
  dependency : Option RawDependency
  createdAt : Option String
  updatedAt : Option String
  dismissedAt : Option String
  fixedAt : Option String
  htmlUrl : Option String
  rawText : String
deriving DecidableEq

/-- `normalizeAlerts(repo, alerts)`: best-effort projection of each raw
record into a `NormalizedAlert`; missing fields degrade to defaults. The
severity is read from the advisory field, then the vulnerability field,
then falls back to the string unknown, and is stored verbatim. -/
def normalizeAlerts (repo : String) (alerts : List RawAlert) : List NormalizedAlert :=
  alerts.map fun a =>
    { repo := repo
      alertNumber := a.number.getD 0
      state := a.state.getD "unknown"
      severity := ((a.securityAdvisory.bind (·.severity)).or
        (a.securityVulnerability.bind (·.severity))).getD "unknown"
      packageName := (a.dependency.bind (·.packageName))
      manifestPath := (a.dependency.bind (·.manifestPath))
      ecosystem := (a.dependency.bind (·.ecosystem))
      createdAt := a.createdAt
      updatedAt := a.updatedAt
      dismissedAt := a.dismissedAt
      fixedAt := a.fixedAt
      htmlUrl := a.htmlUrl
      ghsaId := (a.securityAdvisory.bind (·.ghsaId))
      cveId := (a.securityAdvisory.bind (·.cveId))
      advisorySummary := (a.securityAdvisory.bind (·.summary))
      cvssScore := (a.securityAdvisory.bind (·.cvssScore))
      patchedVersion := (a.securityVulnerability.bind (·.firstPatchedVersion))
      rawJson := a.rawText }

/-! ### Severity ranking and deterministic sort (`src/core/alerts.ts`) -/

/-- `SEVERITY_ORDER` of `src/core/alerts.ts`. -/
def SEVERITY_ORDER : List String := ["critical", "high", "medium", "low", "unknown"]

/-- `SEVERITY_ORDER.indexOf(sev.toLowerCase())` with the -1 miss mapped to
999, as the comparator of `sortAlerts` does. -/
def severityRank (sev : String) : Int :=
  match (SEVERITY_ORDER.indexOf? (asciiLower sev)) with
  | some i => (i : Int)
  | none => 999

/-- The comparator passed to `sort` in `sortAlerts`: severity rank
ascending, then `createdAt` descending (reversed `localeCompare`, with a
null `createdAt` read as the empty string). -/
def alertCmp (a b : NormalizedAlert) : Int :=
  if severityRank a.severity ≠ severityRank b.severity then
    severityRank a.severity - severityRank b.severity
  else
    strCmp (b.createdAt.getD "") (a.createdAt.getD "")

/-- The comparator as an ordering relation: a may stay before b exactly
when the comparator does not require a swap. -/
def alertLe (a b : NormalizedAlert) : Prop := alertCmp a b ≤ 0

instance : DecidableRel alertLe := fun a b => by
  unfold alertLe; infer_instance

/-- `sortAlerts(alerts)`: a stable comparison sort by `alertCmp`. -/
def sortAlerts (alerts : List NormalizedAlert) : List NormalizedAlert :=
  alerts.insertionSort alertLe

/-! ### Lifecycle store: ingestion (`saveAlerts` in `src/core/db.ts`) -/

/-- The existing-state map that `saveAlerts` loads before its loop: the
(state, severity) pair of the stored row for the given repo and alert
number. The code builds a `Map` over the SELECTed rows, so a later row
wins; the table holds at most one row per key anyway. -/
def existingPair (tbl : List NormalizedAlert) (repo : String) (n : Int) :
    Option (String × String) :=
  (tbl.filter (fun r => r.repo = repo)).foldl
    (fun acc r => if r.alertNumber = n then some (r.state, r.severity) else acc) none

/-- The change test of the `saveAlerts` loop: no stored record, or stored
state or severity differ from the incoming alert. -/
def hasChanged (existing : Option (String × String)) (a : NormalizedAlert) : Bool :=
  match existing with
  | none => true
  | some (st, sev) => st ≠ a.state || sev ≠ a.severity

/-- The history row that `insertHistory.run` writes: the repo parameter of
the call, the incoming state and severity, recorded at the sync
timestamp. -/
def mkEvent (repo : String) (lastSync : ℚ) (a : NormalizedAlert) : HistoryEvent :=
  { repo := repo
    alertNumber := a.alertNumber
    state := a.state
    severity := a.severity
    recordedAt := lastSync
    rawJson := a.rawJson }

/-- The `alerts` upsert: `INSERT ... ON CONFLICT(repo, alert_number) DO
UPDATE SET` every other field, keyed by the repo field of the incoming
alert record itself. -/
def upsertAlertRow (tbl : List NormalizedAlert) (a : NormalizedAlert) :
    List NormalizedAlert :=
  if tbl.any (fun r => r.repo = a.repo ∧ r.alertNumber = a.alertNumber) then
    tbl.map (fun r =>
      if r.repo = a.repo ∧ r.alertNumber = a.alertNumber then a else r)
  else
    tbl ++ [a]

/-- The `repo_sync` upsert keyed by repo. -/
def upsertSync (tbl : List (String × ℚ)) (repo : String) (lastSync : ℚ) :
    List (String × ℚ) :=
  if tbl.any (fun p => p.1 = repo) then
    tbl.map (fun p => if p.1 = repo then (repo, lastSync) else p)
  else
    tbl ++ [(repo, lastSync)]

/-- One iteration of the `saveAlerts` loop. The change test reads the
existing map loaded from the pre-call table `db0`, never the table being
updated, exactly as the code captures `existingMap` before the loop. -/
def saveStep (db0 : Db) (repo : String) (lastSync : ℚ) (acc : Db)
    (a : NormalizedAlert) : Db :=
  let changed := hasChanged (existingPair db0.alerts repo a.alertNumber) a
  { acc with
    history := if changed then acc.history ++ [mkEvent repo lastSync a] else acc.history
    alerts := upsertAlertRow acc.alerts a }

/-- `saveAlerts(db, repo, alerts, lastSync)`: per incoming alert, append a
history event when the (state, severity) pair changed, upsert the current
row unconditionally; finally upsert the sync record. The whole body runs
inside one transaction (see `saveAlertsFaulty`). -/
def saveAlerts (db : Db) (repo : String) (alerts : List NormalizedAlert)
    (lastSync : ℚ) : Db :=
  let looped := alerts.foldl (saveStep db repo lastSync) db
  { looped with repoSync := upsertSync looped.repoSync repo lastSync }

/-! ### Transactional execution of the ingestion writes -/

/-- One SQL write statement executed inside the `saveAlerts`
transaction. -/
inductive WriteOp where
  | putAlert (a : NormalizedAlert)
  | addHistory (e : HistoryEvent)
  | putSync (repo : String) (lastSync : ℚ)
deriving DecidableEq

/-- Effect of one write on the store. -/
def applyWrite (db : Db) : WriteOp → Db
  | WriteOp.putAlert a => { db with alerts := upsertAlertRow db.alerts a }
  | WriteOp.addHistory e => { db with history := db.history ++ [e] }
  | WriteOp.putSync repo t => { db with repoSync := upsertSync db.repoSync repo t }

/-- The ordered list of writes the `saveAlerts` transaction issues: per
alert an optional history insert then the row upsert, finally the sync
upsert. The change tests read the pre-call table, as in the code. -/
def saveWrites (db : Db) (repo : String) (alerts : List NormalizedAlert)
    (lastSync : ℚ) : List WriteOp :=
  (alerts.flatMap fun a =>
    (if hasChanged (existingPair db.alerts repo a.alertNumber) a then
      [WriteOp.addHistory (mkEvent repo lastSync a)]
    else []) ++ [WriteOp.putAlert a])
  ++ [WriteOp.putSync repo lastSync]

/-- Fault-injected ingestion: the writes run inside `db.transaction`, so a
failure before the final write (the k-th write throwing, for k below the
write count) rolls the whole transaction back and the store is unchanged;
only a run of every write commits. Rollback-on-throw is the documented
contract of better-sqlite3 transactions. -/
def saveAlertsFaulty (db : Db) (repo : String) (alerts : List NormalizedAlert)
    (lastSync : ℚ) (k : ℕ) : Db :=
  let ws := saveWrites db repo alerts lastSync
  if k < ws.length then db else ws.foldl applyWrite db

/-! ### Lifecycle store: reads (`src/core/db.ts`) -/

/-- `getCachedAlerts(db, repo)`: no sync record means no cache (empty
result); otherwise the stored rows for the repo, unsorted. -/
def getCachedAlerts (db : Db) (repo : String) :
    List NormalizedAlert × Option ℚ × Bool :=
  match db.repoSync.find? (fun p => p.1 = repo) with
  | none => ([], none, false)
  | some p => (db.alerts.filter (fun r => r.repo = repo), some p.2, true)

/-- `getRepoAlerts(db, repo)`: the cached rows, sorted. -/
def getRepoAlerts (db : Db) (repo : String) :
    List NormalizedAlert × Option ℚ :=
  let cached := getCachedAlerts db repo
  (sortAlerts cached.1, cached.2.1)

/-! ### Repo summaries (`getAllRepoSummaries` in `src/core/db.ts`) -/

/-- Ascending code-point order on strings, the BINARY collation ORDER BY
applies to the repo column. -/
def strLe (a b : String) : Prop := strCmp a b ≤ 0

instance : DecidableRel strLe := fun a b => by
  unfold strLe; infer_instance

/-- `RepoSummary`: severity counts are the pivoted map, keyed by lowered
severity. -/
structure RepoSummary where
  repo : String
  lastSync : ℚ
  severityCounts : List (String × ℕ)
  totalAlerts : ℕ
deriving DecidableEq

/-- Overwrite-or-append assignment on the pivot map, the effect of
`summary.severityCounts[key] = count`. -/
def assocPut (m : List (String × ℕ)) (k : String) (v : ℕ) : List (String × ℕ) :=
  if m.any (fun p => p.1 = k) then
    m.map (fun p => if p.1 = k then (k, v) else p)
  else
    m ++ [(k, v)]

/-- `getAllRepoSummaries(db)`: one summary per synced repo (ORDER BY repo),
with per-severity counts of its open alerts pivoted in code; a repo with
no open alerts yields the empty count map and total 0. Severity group keys
are grouped on the stored severity text and lowered only when pivoted. -/
def getAllRepoSummaries (db : Db) : List RepoSummary :=
  let repos := (dedupFirst (db.repoSync.map (·.1))).insertionSort strLe
  repos.map fun rp =>
    let lastSync := ((db.repoSync.find? (fun p => p.1 = rp)).map (·.2)).getD 0
    let opens := db.alerts.filter (fun a => a.repo = rp ∧ a.state = "open")
    let sevs := dedupFirst (opens.map (·.severity))
    let counts := sevs.map (fun s => (s, (opens.filter (fun a => a.severity = s)).length))
    { repo := rp
      lastSync := lastSync
      severityCounts := counts.foldl (fun m p => assocPut m (asciiLower p.1) p.2) []
      totalAlerts := (counts.map (·.2)).sum }

/-! ### Trend series (`getTrendData` in `src/core/db.ts`) -/

/-- A trend point: one calendar day with the four zero-filled severity
counts. The day is the integer calendar-day key that date() extracts. -/
structure TrendPoint where
  day : ℤ
  critical : ℕ
  high : ℕ
  medium : ℕ
  low : ℕ
deriving DecidableEq

/-- The calendar-day key that the SQL date() function extracts, under the
timestamp convention fixed above: the floor of the day count, written with
integer floor division so that it evaluates by kernel reduction. -/
def ratFloor (q : ℚ) : ℤ := q.num.fdiv q.den

/-- The optional repo filter `(repo = @repo OR @repo IS NULL)`. -/
def repoFilterOk (f : Option String) (repo : String) : Bool :=
  match f with
  | none => true
  | some r => repo = r

/-- The grouped SQL rows of `getTrendData`: per (day, severity) key of the
open-state events passing the filter, the count of distinct alert numbers
recorded under that exact key, ordered by day (groups of one day keep
first-occurrence order; no verified statement depends on that order). -/
def trendRows (hist : List HistoryEvent) (f : Option String) :
    List (ℤ × String × ℕ) :=
  let evs := hist.filter (fun e => e.state = "open" && repoFilterOk f e.repo)
  let keys := (dedupFirst (evs.map (fun e => (ratFloor e.recordedAt, e.severity)))).insertionSort
    (fun x y => x.1 ≤ y.1)
  keys.map fun k =>
    (k.1, k.2,
      (dedupFirst ((evs.filter
        (fun e => ratFloor e.recordedAt = k.1 ∧ e.severity = k.2)).map (·.alertNumber))).length)

/-- Store one grouped row into the pivoted day list, the body of the
`dayMap` loop: find or create the point of the day, then assign the count
to the field named by the lowered severity (an unrecognised severity is
dropped by the `key in point` guard). -/
def trendStore (pts : List TrendPoint) (row : ℤ × String × ℕ) : List TrendPoint :=
  let upd := fun (p : TrendPoint) =>
    if asciiLower row.2.1 = "critical" then { p with critical := row.2.2 }
    else if asciiLower row.2.1 = "high" then { p with high := row.2.2 }
    else if asciiLower row.2.1 = "medium" then { p with medium := row.2.2 }
    else if asciiLower row.2.1 = "low" then { p with low := row.2.2 }
    else p
  if pts.any (fun p => p.day = row.1) then
    pts.map (fun p => if p.day = row.1 then upd p else p)
  else
    pts ++ [upd { day := row.1, critical := 0, high := 0, medium := 0, low := 0 }]

/-- `getTrendData(db, repo?)`: pivot the grouped rows into one point per
day. -/
def getTrendData (db : Db) (f : Option String) : List TrendPoint :=
  (trendRows db.history f).foldl trendStore []

/-! ### MTTR metrics (`getMttrMetrics` in `src/core/db.ts`) -/

/-- An output row of `getMttrMetrics` after the Zod mapping: severity
lowered, average rounded to one decimal. -/
structure MttrMetric where
  repo : String
  severity : String
  avgDays : ℚ
  resolvedCount : ℕ
deriving DecidableEq

/-- The h1 predicate of the MTTR self-join: an open event of the given
alert. -/
def isOpenFor (repo : String) (n : Int) (e : HistoryEvent) : Bool :=
  e.repo = repo && e.alertNumber = n && e.state = "open"

/-- The h2 predicate of the MTTR self-join: a fixed or dismissed event of
the given alert. -/
def isResFor (repo : String) (n : Int) (e : HistoryEvent) : Bool :=
  e.repo = repo && e.alertNumber = n && (e.state = "fixed" || e.state = "dismissed")

/-- One row of the MTTR self-join before grouping: repo and severity of
h1, elapsed days from h1 to h2. -/
structure MttrRow where
  repo : String
  alertNumber : Int
  severity : String
  elapsed : ℚ
deriving DecidableEq

/-- The joined rows of the MTTR query. h1 ranges over history rows that
are the minimal-id open event of their alert (the `h1.id = (SELECT
MIN(id) ...)` condition); the matching `h2.id = (SELECT MIN(id) ...)`
condition pins h2 to the first fixed-or-dismissed event of the same alert,
so each such h1 with a resolution event contributes exactly one row. The
join imposes no order between the two ids. -/
def mttrPhi (hist : List HistoryEvent) (f : Option String)
    (ie : ℕ × HistoryEvent) : Option MttrRow :=
  if ie.2.state = "open" ∧
      hist.findIdx? (isOpenFor ie.2.repo ie.2.alertNumber) = some ie.1 ∧
      repoFilterOk f ie.2.repo then
    match hist.find? (isResFor ie.2.repo ie.2.alertNumber) with
    | some e2 => some
        { repo := ie.2.repo
          alertNumber := ie.2.alertNumber
          severity := ie.2.severity
          elapsed := e2.recordedAt - ie.2.recordedAt }
    | none => none
  else none

def mttrJoinRows (hist : List HistoryEvent) (f : Option String) : List MttrRow :=
  hist.enum.filterMap (mttrPhi hist f)

/-- The (h1.repo, h1.severity) grouping key of the MTTR query. -/
def mttrGroupKey (r : MttrRow) : String × String := (r.repo, r.severity)

/-- One output row of the MTTR query for one grouping key: the Zod row
schema lowers the severity and rounds the average to one decimal. -/
def mttrMetricOf (rows : List MttrRow) (k : String × String) : MttrMetric :=
  let g := rows.filter (fun r => r.repo = k.1 ∧ r.severity = k.2)
  { repo := k.1
    severity := asciiLower k.2
    avgDays := round1 ((g.map (·.elapsed)).sum / (g.length : ℚ))
    resolvedCount := g.length }

/-- `getMttrMetrics(db, repo?)`: group the joined rows by (h1.repo,
h1.severity), average the elapsed days and count the rows. Group output
order is first occurrence; no verified statement depends on it. -/
def getMttrMetrics (db : Db) (f : Option String) : List MttrMetric :=
  let rows := mttrJoinRows db.history f
  (dedupFirst (rows.map mttrGroupKey)).map (mttrMetricOf rows)

/-! ### SLA violations (`getSlaViolations` in `src/core/db.ts`) -/

/-- `DEFAULT_SLA_LIMITS`. -/
def DEFAULT_SLA_LIMITS : List (String × ℚ) :=
  [("critical", 2), ("high", 7), ("medium", 30), ("low", 90)]

/-- `{ ...DEFAULT_SLA_LIMITS, ...slaConfig }[severity] ?? 90`: an override
wins over the default, an unknown severity falls back to 90. -/
def slaLimitFor (cfg : List (String × ℚ)) (sev : String) : ℚ :=
  match cfg.find? (fun p => p.1 = sev) with
  | some p => p.2
  | none =>
    match DEFAULT_SLA_LIMITS.find? (fun p => p.1 = sev) with
    | some p => p.2
    | none => 90

/-- An entry of the `getSlaViolations` result. -/
structure SlaViolation where
  repo : String
  alertNumber : Int
  severity : String
  packageName : Option String
  htmlUrl : Option String
  firstSeen : ℚ
  openDays : ℚ
  slaLimitDays : ℚ
  overdue : Bool
deriving DecidableEq

/-- The joined SQL rows of `getSlaViolations`: every open alert joined to
its very first history event (the `h.id = (SELECT MIN(id) ...)` condition,
over events of every state), with the raw open duration measured from now.
The present moment julianday(now) is passed as `now`. -/
def slaJoinRows (db : Db) :
    List (NormalizedAlert × HistoryEvent) :=
  db.alerts.filterMap fun a =>
    if a.state = "open" then
      match db.history.find?
          (fun e => e.repo = a.repo && e.alertNumber = a.alertNumber) with
      | some h => some (a, h)
      | none => none
    else none

/-- The comparator ordering of the final sort: descending (openDays −
limit). -/
def slaLe (a b : SlaViolation) : Prop :=
  (b.openDays - b.slaLimitDays) - (a.openDays - a.slaLimitDays) ≤ 0

instance : DecidableRel slaLe := fun a b => by
  unfold slaLe; infer_instance

/-- `getSlaViolations(db, slaConfig?)` at the present moment `now`: map
each joined row to a violation entry (severity lowered, open days rounded
to one decimal, overdue exactly when the rounded days strictly exceed the
limit) and sort by descending (openDays − limit). -/
def getSlaViolations (db : Db) (cfg : List (String × ℚ)) (now : ℚ) :
    List SlaViolation :=
  ((slaJoinRows db).map fun r =>
    let sev := asciiLower r.1.severity
    let lim := slaLimitFor cfg sev
    let od := round1 (now - r.2.recordedAt)
    { repo := r.1.repo
      alertNumber := r.1.alertNumber
      severity := sev
      packageName := r.1.packageName
      htmlUrl := r.1.htmlUrl
      firstSeen := r.2.recordedAt
      openDays := od
      slaLimitDays := lim
      overdue := decide (od > lim) }).insertionSort slaLe

/-! ### Refresh orchestration (`src/core/alerts.ts` scheduler module and
the `/api/repos/refresh-all` route of `src/core/server.ts`) -/

/-- Scheduler state; `running` is the single concurrency flag. -/
structure SchedulerState where
  running : Bool
  lastRun : Option ℚ
  lastResult : Option (ℕ × ℕ × ℕ)
  nextRun : Option ℚ
  cronExpression : String
deriving DecidableEq

/-- The batch result reported by `refreshAllRepos`. -/
structure RefreshResult where
  refreshed : ℕ
  failed : ℕ
  total : ℕ
  results : List (String × Bool)
deriving DecidableEq

/-- `refreshAllRepos(db, octokit)`: iterate the tracked repos
sequentially; per repo fetch (the external collaborator is a function from
repo to an optional raw list, null meaning failure), on success normalize
and ingest, record a per-repo outcome. Returns the updated store, the
aggregate result and the number of fetches performed. The stagger delay
has no observable state effect and is not modelled. -/
def refreshStep (fetch : String → Option (List RawAlert)) (ts : ℚ)
    (acc : Db × List (String × Bool) × ℕ) (rp : String) :
    Db × List (String × Bool) × ℕ :=
  match fetch rp with
  | some raw => (saveAlerts acc.1 rp (normalizeAlerts rp raw) ts,
      acc.2.1 ++ [(rp, true)], acc.2.2 + 1)
  | none => (acc.1, acc.2.1 ++ [(rp, false)], acc.2.2 + 1)

def refreshAllRepos (db : Db) (fetch : String → Option (List RawAlert))
    (ts : ℚ) : Db × RefreshResult × ℕ :=
  let repos := (getAllRepoSummaries db).map (·.repo)
  let out := repos.foldl (refreshStep fetch ts) (db, [], 0)
  (out.1,
    { refreshed := (out.2.1.filter (·.2)).length
      failed := (out.2.1.filter (fun r => !r.2)).length
      total := repos.length
      results := out.2.1 },
    out.2.2)

/-- The cron callback installed by `startScheduler`: when the running flag
is set it only logs a skip message and returns (zero fetches, no result
reported); otherwise it sets the flag, runs `refreshAllRepos`, records the
result and clears the flag. The returned Bool reports whether the tick
skipped. -/
def cronTick (s : SchedulerState) (db : Db)
    (fetch : String → Option (List RawAlert)) (ts : ℚ) :
    SchedulerState × Db × ℕ × Bool :=
  if s.running then (s, db, 0, true)
  else
    let out := refreshAllRepos db fetch ts
    ({ s with
        running := false
        lastRun := some ts
        lastResult := some (out.2.1.refreshed, out.2.1.failed, out.2.1.total) },
      out.1, out.2.2, false)

/-- The `/api/repos/refresh-all` route body: it calls `refreshAllRepos`
unconditionally and never reads or sets the scheduler state. The state is
taken as an argument only to show it is ignored. -/
def refreshAllEndpoint (_s : SchedulerState) (db : Db)
    (fetch : String → Option (List RawAlert)) (ts : ℚ) :
    RefreshResult × Db × ℕ :=
  let out := refreshAllRepos db fetch ts
  (out.2.1, out.1, out.2.2)

/-! ### Fixtures used by concrete witnesses and counterexamples -/

/-- An alert record with only the lifecycle-relevant fields set. -/
def baseAlert (repo : String) (n : Int) (st sev : String) : NormalizedAlert :=
  { repo := repo
    alertNumber := n
    state := st
    severity := sev
    packageName := none
    manifestPath := none
    ecosystem := none
    createdAt := none
    updatedAt := none
    dismissedAt := none
    fixedAt := none
    htmlUrl := none
    ghsaId := none
    cveId := none
    advisorySummary := none
    cvssScore := none
    patchedVersion := none
    rawJson := "raw" }

/-- The empty store. -/
def emptyDb : Db := { alerts := [], history := [], repoSync := [] }

/-- A store tracking one repo, used by the orchestration example. -/
def demoDb : Db := { alerts := [], history := [], repoSync := [("acme/widget", 0)] }

/-- A scheduler state with a refresh marked in progress. -/
def runningState : SchedulerState :=
  { running := true, lastRun := none, lastResult := none, nextRun := none,
    cronExpression := "0 6 * * *" }

/-! ### History bookkeeping lemmas for ingestion -/

/-- Number of history rows of one alert of one repo. -/
def histCount (h : List HistoryEvent) (repo : String) (n : Int) : ℕ :=
  h.countP (fun e => e.repo = repo && e.alertNumber = n)

/-- The (repo, alertNumber) key of a history event. -/
def keyOf (e : HistoryEvent) : String × Int := (e.repo, e.alertNumber)

/-- The alert keys present in a history log, first occurrences first. -/
def alertKeys (hist : List HistoryEvent) : List (String × Int) :=
  dedupFirst (hist.map keyOf)

/-- Reference definition following the words of the specification for the
trend series: the most recent open-state event of the alert recorded on or
before the given day (most recent by recorded timestamp; later log entry
wins a tie). -/
def latestOpenOnOrBefore (hist : List HistoryEvent) (k : String × Int)
    (day : ℤ) : Option HistoryEvent :=
  hist.foldl (fun acc e =>
    if keyOf e = k ∧ e.state = "open" ∧ ratFloor e.recordedAt ≤ day then
      match acc with
      | none => some e
      | some a => if a.recordedAt ≤ e.recordedAt then some e else some a
    else acc) none

/-- Reference definition following the words of the specification for the
trend series: the number of distinct alerts whose most recent open-state
event recorded on or before the day carries the given severity — the
daily snapshot reconstructed from the change log. -/
def specTrendOpenCount (hist : List HistoryEvent) (f : Option String)
    (day : ℤ) (sev : String) : ℕ :=
  ((alertKeys hist).filter (fun k =>
    repoFilterOk f k.1 &&
      match latestOpenOnOrBefore hist k day with
      | some e => decide (e.severity = sev)
      | none => false)).length

/-- A change log with one alert opened on day 0 and a second alert opened
on day 1, both critical. -/
def trendHist : List HistoryEvent :=
  [{ repo := "r", alertNumber := 1, state := "open", severity := "critical",
     recordedAt := 0, rawJson := "raw" },
   { repo := "r", alertNumber := 2, state := "open", severity := "critical",
     recordedAt := 1, rawJson := "raw" }]

/-- The store holding `trendHist`. -/
def trendDb : Db := { alerts := [], history := trendHist, repoSync := [("r", 1)] }

/-- First open event of an alert (minimal history id). -/
def firstOpenEvent (hist : List HistoryEvent) (k : String × Int) :
    Option HistoryEvent :=
  hist.find? (isOpenFor k.1 k.2)

/-- First fixed-or-dismissed event of an alert (minimal history id). -/
def firstResEvent (hist : List HistoryEvent) (k : String × Int) :
    Option HistoryEvent :=
  hist.find? (isResFor k.1 k.2)

/-- Reference predicate following the words of the claim on MTTR: the
history of the alert contains a first open event followed later by a
first fixed-or-dismissed event (the resolution strictly after the open in
log order). -/
def mttrQualifiesOrdered (hist : List HistoryEvent) (k : String × Int) : Bool :=
  match hist.findIdx? (isOpenFor k.1 k.2), hist.findIdx? (isResFor k.1 k.2) with
  | some i, some j => i < j
  | _, _ => false

/-- Reference definition for the amended MTTR claim: an alert of the given
repo and first-open severity that has both an open and a resolution event
and passes the repo filter. -/
def mttrSpecQualifies (hist : List HistoryEvent) (f : Option String)
    (rp sv : String) (k : String × Int) : Bool :=
  k.1 = rp && repoFilterOk f k.1 &&
    (match firstOpenEvent hist k with
     | some o => decide (o.severity = sv)
     | none => false) &&
    (firstResEvent hist k).isSome

/-- Reference definition for the amended MTTR claim: elapsed days from the
first open event to the first resolution event (in either log order). -/
def mttrSpecElapsed (hist : List HistoryEvent) (k : String × Int) : ℚ :=
  match firstOpenEvent hist k, firstResEvent hist k with
  | some o, some r => r.recordedAt - o.recordedAt
  | _, _ => 0

/-- Reference definition for the amended MTTR claim: the join row an alert
with both events contributes — its repo and number, the severity of its
first open event, and the elapsed days. -/
def mttrRowOf (hist : List HistoryEvent) (k : String × Int) : MttrRow :=
  { repo := k.1
    alertNumber := k.2
    severity := match firstOpenEvent hist k with
      | some o => o.severity
      | none => ""
    elapsed := mttrSpecElapsed hist k }

/-- A change log in which the only alert is first recorded as fixed and
later as open: the first resolution event precedes the first open event. -/
def mttrHist : List HistoryEvent :=
  [{ repo := "r", alertNumber := 1, state := "fixed", severity := "high",
     recordedAt := 0, rawJson := "raw" },
   { repo := "r", alertNumber := 1, state := "open", severity := "high",
     recordedAt := 5, rawJson := "raw" }]

/-- The store holding `mttrHist`. -/
def mttrDb : Db := { alerts := [], history := mttrHist, repoSync := [("r", 5)] }

/-- The end-to-end example store of the specification: one critical alert
opened at day 0 and fixed at day 9 (2024-01-01 to 2024-01-10). -/
def exampleDb : Db :=
  saveAlerts
    (saveAlerts emptyDb "acme/widget"
      [baseAlert "acme/widget" 1 "open" "critical"] 0)
    "acme/widget" [baseAlert "acme/widget" 1 "fixed" "critical"] 9

theorem saveAlerts_foldl_history (db : Db) (repo : String) (ts : ℚ)
    (alerts : List NormalizedAlert) (acc : Db) :
    (alerts.foldl (saveStep db repo ts) acc).history =
      acc.history ++ (alerts.filter
        (fun a => hasChanged (existingPair db.alerts repo a.alertNumber) a)).map
          (mkEvent repo ts) := by
  induction alerts generalizing acc with
  | nil => simp
  | cons a as ih =>
    simp only [List.foldl_cons, List.filter_cons]
    rw [ih]
    by_cases h : hasChanged (existingPair db.alerts repo a.alertNumber) a = true
    · simp [saveStep, h]
    · rw [Bool.not_eq_true] at h
      simp [saveStep, h]

theorem saveAlerts_history (db : Db) (repo : String)
    (alerts : List NormalizedAlert) (ts : ℚ) :
    (saveAlerts db repo alerts ts).history =
      db.history ++ (alerts.filter
        (fun a => hasChanged (existingPair db.alerts repo a.alertNumber) a)).map
          (mkEvent repo ts) := by
  unfold saveAlerts
  exact saveAlerts_foldl_history db repo ts alerts db

theorem saveAlerts_foldl_alerts (db : Db) (repo : String) (ts : ℚ)
    (alerts : List NormalizedAlert) (acc : Db) :
    (alerts.foldl (saveStep db repo ts) acc).alerts =
      alerts.foldl upsertAlertRow acc.alerts := by
  induction alerts generalizing acc with
  | nil => rfl
  | cons a as ih =>
    simp only [List.foldl_cons]
    rw [ih]
    rfl

theorem saveAlerts_alerts (db : Db) (repo : String)
    (alerts : List NormalizedAlert) (ts : ℚ) :
    (saveAlerts db repo alerts ts).alerts =
      alerts.foldl upsertAlertRow db.alerts := by
  unfold saveAlerts
  exact saveAlerts_foldl_alerts db repo ts alerts db

theorem saveAlerts_foldl_repoSync (db : Db) (repo : String) (ts : ℚ)
    (alerts : List NormalizedAlert) (acc : Db) :
    (alerts.foldl (saveStep db repo ts) acc).repoSync = acc.repoSync := by
  induction alerts generalizing acc with
  | nil => rfl
  | cons a as ih =>
    simp only [List.foldl_cons]
    rw [ih]
    rfl

theorem saveAlerts_repoSync (db : Db) (repo : String)
    (alerts : List NormalizedAlert) (ts : ℚ) :
    (saveAlerts db repo alerts ts).repoSync =
      upsertSync db.repoSync repo ts := by
  show upsertSync (List.foldl (saveStep db repo ts) db alerts).repoSync repo ts =
    upsertSync db.repoSync repo ts
  rw [saveAlerts_foldl_repoSync]

/-! ### C1 -/

/-- C1: per ingestion call, the number of history rows of (repo, n) grows
by exactly the number of incoming alerts with alert number n whose
(state, severity) pair differs from the stored record or that have no
stored record; the history is extended, never rewritten. An unchanged
re-ingested alert hence adds zero rows and a single open-to-fixed
transition adds exactly one. -/
theorem saveAlerts_history_change_iff (db : Db) (repo : String)
    (alerts : List NormalizedAlert) (ts : ℚ) (n : Int) :
    (∃ tail, (saveAlerts db repo alerts ts).history = db.history ++ tail) ∧
    histCount (saveAlerts db repo alerts ts).history repo n =
      histCount db.history repo n +
        alerts.countP (fun a => a.alertNumber = n &&
          hasChanged (existingPair db.alerts repo a.alertNumber) a) := by
  constructor
  · exact ⟨_, saveAlerts_history db repo alerts ts⟩
  · rw [saveAlerts_history]
    unfold histCount
    rw [List.countP_append, List.countP_map, List.countP_filter]
    congr 1
    apply List.countP_congr
    intro a _
    simp [mkEvent, Function.comp, Bool.and_comm]

/-! ### Upsert lemmas -/

theorem upsertAlertRow_key_eq (tbl : List NormalizedAlert) (a : NormalizedAlert) :
    ∀ r ∈ upsertAlertRow tbl a, r.repo = a.repo → r.alertNumber = a.alertNumber →
      r = a := by
  intro r hr hrepo hnum
  unfold upsertAlertRow at hr
  by_cases h : tbl.any (fun r => r.repo = a.repo ∧ r.alertNumber = a.alertNumber)
  · rw [if_pos h] at hr
    obtain ⟨r0, _, hr0⟩ := List.mem_map.mp hr
    by_cases hm : r0.repo = a.repo ∧ r0.alertNumber = a.alertNumber
    · simpa [hm] using hr0.symm
    · rw [if_neg hm] at hr0
      subst hr0
      exact absurd ⟨hrepo, hnum⟩ hm
  · rw [if_neg h] at hr
    rcases List.mem_append.mp hr with hr | hr
    · exact absurd (List.any_eq_true.mpr ⟨r, hr, by simp [hrepo, hnum]⟩) h
    · simpa using hr

theorem mem_upsertAlertRow_self (tbl : List NormalizedAlert)
    (a : NormalizedAlert) : a ∈ upsertAlertRow tbl a := by
  unfold upsertAlertRow
  by_cases h : tbl.any (fun r => r.repo = a.repo ∧ r.alertNumber = a.alertNumber)
  · rw [if_pos h]
    obtain ⟨r0, hr0, hm⟩ := List.any_eq_true.mp h
    refine List.mem_map.mpr ⟨r0, hr0, ?_⟩
    simp only [decide_eq_true_eq] at hm
    rw [if_pos hm]
  · rw [if_neg h]
    simp

theorem mem_upsertAlertRow_frame (tbl : List NormalizedAlert)
    (a b : NormalizedAlert)
    (hne : ¬(b.repo = a.repo ∧ b.alertNumber = a.alertNumber))
    (hb : b ∈ tbl) : b ∈ upsertAlertRow tbl a := by
  unfold upsertAlertRow
  by_cases h : tbl.any (fun r => r.repo = a.repo ∧ r.alertNumber = a.alertNumber)
  · rw [if_pos h]
    refine List.mem_map.mpr ⟨b, hb, ?_⟩
    rw [if_neg (by simpa using hne)]
  · rw [if_neg h]
    exact List.mem_append_left _ hb

theorem mem_upsertAlertRow_src (tbl : List NormalizedAlert)
    (a r : NormalizedAlert) (hr : r ∈ upsertAlertRow tbl a) :
    r = a ∨ r ∈ tbl := by
  unfold upsertAlertRow at hr
  by_cases h : tbl.any (fun r => r.repo = a.repo ∧ r.alertNumber = a.alertNumber)
  · rw [if_pos h] at hr
    obtain ⟨r0, hr0, hr0e⟩ := List.mem_map.mp hr
    by_cases hm : r0.repo = a.repo ∧ r0.alertNumber = a.alertNumber
    · left; rw [if_pos hm] at hr0e; exact hr0e.symm
    · right; rw [if_neg hm] at hr0e; rw [← hr0e]; exact hr0
  · rw [if_neg h] at hr
    rcases List.mem_append.mp hr with hr | hr
    · right; exact hr
    · left; simpa using hr

theorem upsertAlertRow_id (tbl : List NormalizedAlert) (a : NormalizedAlert)
    (hex : a ∈ tbl)
    (huniq : ∀ r ∈ tbl, r.repo = a.repo → r.alertNumber = a.alertNumber → r = a) :
    upsertAlertRow tbl a = tbl := by
  unfold upsertAlertRow
  rw [if_pos (List.any_eq_true.mpr ⟨a, hex, by simp⟩)]
  have hcong : ∀ r ∈ tbl,
      (if r.repo = a.repo ∧ r.alertNumber = a.alertNumber then a else r) = id r := by
    intro r hr
    by_cases hm : r.repo = a.repo ∧ r.alertNumber = a.alertNumber
    · rw [if_pos hm]; exact (huniq r hr hm.1 hm.2).symm
    · rw [if_neg hm]; rfl
  rw [List.map_congr_left hcong, List.map_id]

theorem foldl_upsert_preserve (bs : List NormalizedAlert)
    (tbl : List NormalizedAlert) (a : NormalizedAlert)
    (hdiff : ∀ x ∈ bs, ¬(x.repo = a.repo ∧ x.alertNumber = a.alertNumber))
    (hmem : a ∈ tbl)
    (huniq : ∀ r ∈ tbl, r.repo = a.repo → r.alertNumber = a.alertNumber → r = a) :
    a ∈ bs.foldl upsertAlertRow tbl ∧
      ∀ r ∈ bs.foldl upsertAlertRow tbl,
        r.repo = a.repo → r.alertNumber = a.alertNumber → r = a := by
  induction bs generalizing tbl with
  | nil => exact ⟨hmem, huniq⟩
  | cons x bs ih =>
    simp only [List.foldl_cons]
    apply ih
    · intro y hy; exact hdiff y (List.mem_cons_of_mem _ hy)
    · apply mem_upsertAlertRow_frame
      · intro hc
        exact hdiff x (List.mem_cons_self _ _) ⟨hc.1.symm ▸ rfl, hc.2.symm ▸ rfl⟩
      · exact hmem
    · intro r hr hrepo hnum
      rcases mem_upsertAlertRow_src tbl x r hr with hrx | hrt
      · subst hrx
        exact absurd ⟨hrepo, hnum⟩ (hdiff r (List.mem_cons_self _ _))
      · exact huniq r hrt hrepo hnum

theorem foldl_upsert_key (as : List NormalizedAlert)
    (tbl : List NormalizedAlert) (a : NormalizedAlert) (ha : a ∈ as)
    (hnodup : (as.map (·.alertNumber)).Nodup)
    (hrepo : ∀ x ∈ as, x.repo = a.repo) :
    a ∈ as.foldl upsertAlertRow tbl ∧
      ∀ r ∈ as.foldl upsertAlertRow tbl,
        r.repo = a.repo → r.alertNumber = a.alertNumber → r = a := by
  induction as generalizing tbl with
  | nil => cases ha
  | cons b bs ih =>
    simp only [List.map_cons, List.nodup_cons] at hnodup
    rcases List.mem_cons.mp ha with hab | hab
    · subst hab
      simp only [List.foldl_cons]
      apply foldl_upsert_preserve
      · intro x hx hc
        exact hnodup.1 (List.mem_map.mpr ⟨x, hx, hc.2⟩)
      · exact mem_upsertAlertRow_self tbl a
      · exact upsertAlertRow_key_eq tbl a
    · simp only [List.foldl_cons]
      exact ih (upsertAlertRow tbl b) hab hnodup.2
        (fun x hx => hrepo x (List.mem_cons_of_mem _ hx))

theorem foldl_upsert_noop (as : List NormalizedAlert)
    (tbl : List NormalizedAlert)
    (h : ∀ a ∈ as, a ∈ tbl ∧
      ∀ r ∈ tbl, r.repo = a.repo → r.alertNumber = a.alertNumber → r = a) :
    as.foldl upsertAlertRow tbl = tbl := by
  induction as with
  | nil => rfl
  | cons a as ih =>
    simp only [List.foldl_cons]
    rw [upsertAlertRow_id tbl a (h a (List.mem_cons_self _ _)).1
      (h a (List.mem_cons_self _ _)).2]
    exact ih (fun x hx => h x (List.mem_cons_of_mem _ hx))

theorem foldl_overwrite_skip (l : List NormalizedAlert) (n : Int)
    (acc : Option (String × String)) (h : ∀ r ∈ l, r.alertNumber ≠ n) :
    l.foldl (fun acc r =>
      if r.alertNumber = n then some (r.state, r.severity) else acc) acc = acc := by
  induction l generalizing acc with
  | nil => rfl
  | cons r rs ih =>
    simp only [List.foldl_cons]
    rw [if_neg (h r (List.mem_cons_self _ _))]
    exact ih acc (fun x hx => h x (List.mem_cons_of_mem _ hx))

theorem foldl_overwrite_eq (l : List NormalizedAlert) (n : Int)
    (a : NormalizedAlert) (acc : Option (String × String))
    (hmem : ∃ r ∈ l, r.alertNumber = n)
    (huniq : ∀ r ∈ l, r.alertNumber = n → r = a) :
    l.foldl (fun acc r =>
      if r.alertNumber = n then some (r.state, r.severity) else acc) acc =
      some (a.state, a.severity) := by
  induction l generalizing acc with
  | nil => obtain ⟨r, hr, _⟩ := hmem; cases hr
  | cons r rs ih =>
    simp only [List.foldl_cons]
    by_cases hrs : ∃ x ∈ rs, x.alertNumber = n
    · exact ih _ hrs (fun x hx => huniq x (List.mem_cons_of_mem _ hx))
    · have hrn : r.alertNumber = n := by
        obtain ⟨x, hx, hxn⟩ := hmem
        rcases List.mem_cons.mp hx with hx | hx
        · exact hx ▸ hxn
        · exact absurd ⟨x, hx, hxn⟩ hrs
      rw [if_pos hrn, huniq r (List.mem_cons_self _ _) hrn]
      apply foldl_overwrite_skip
      intro x hx hxn
      exact hrs ⟨x, hx, hxn⟩

theorem existingPair_some (tbl : List NormalizedAlert) (repo : String)
    (n : Int) (a : NormalizedAlert) (hmem : a ∈ tbl) (hrepo : a.repo = repo)
    (hnum : a.alertNumber = n)
    (huniq : ∀ r ∈ tbl, r.repo = repo → r.alertNumber = n → r = a) :
    existingPair tbl repo n = some (a.state, a.severity) := by
  unfold existingPair
  apply foldl_overwrite_eq
  · exact ⟨a, List.mem_filter.mpr ⟨hmem, by simp [hrepo]⟩, hnum⟩
  · intro r hr hrn
    have := List.mem_filter.mp hr
    exact huniq r this.1 (by simpa using this.2) hrn

theorem upsertSync_idem (l : List (String × ℚ)) (rp : String) (t : ℚ) :
    upsertSync (upsertSync l rp t) rp t = upsertSync l rp t := by
  by_cases h : l.any (fun p => p.1 = rp)
  · unfold upsertSync
    rw [if_pos h]
    obtain ⟨p, hp, hpm⟩ := List.any_eq_true.mp h
    have hany : (l.map (fun p => if p.1 = rp then (rp, t) else p)).any
        (fun p => p.1 = rp) = true := by
      refine List.any_eq_true.mpr ⟨(rp, t), List.mem_map.mpr ⟨p, hp, ?_⟩, by simp⟩
      rw [if_pos (by simpa using hpm)]
    rw [if_pos hany, List.map_map]
    apply List.map_congr_left
    intro p _
    by_cases hm : p.1 = rp
    · simp [hm]
    · simp [hm]
  · unfold upsertSync
    rw [if_neg h]
    have hany : (l ++ [(rp, t)]).any (fun p => p.1 = rp) = true :=
      List.any_eq_true.mpr ⟨(rp, t), by simp, by simp⟩
    rw [if_pos hany, List.map_append]
    have h1 : l.map (fun p => if p.1 = rp then (rp, t) else p) = l := by
      have hnone := List.any_eq_false.mp (Bool.not_eq_true _ ▸ h)
      conv_rhs => rw [← List.map_id l]
      apply List.map_congr_left
      intro p hp
      rw [if_neg (by simpa using hnone p hp)]
      rfl
    rw [h1]
    simp

theorem Db_ext (x y : Db) (h1 : x.alerts = y.alerts)
    (h2 : x.history = y.history) (h3 : x.repoSync = y.repoSync) : x = y := by
  cases x; cases y; simp_all

/-! ### C6 -/

/-- C6 (amended): re-ingesting the same alert list with the same sync
timestamp is a no-op — no new history rows, current state and sync record
equal — provided the list carries at most one entry per alert number and
every entry belongs to the ingested repo, as lists produced by the
normalizer for this repo always do. -/
theorem saveAlerts_idempotent (db : Db) (repo : String)
    (alerts : List NormalizedAlert) (ts : ℚ)
    (hnodup : (alerts.map (·.alertNumber)).Nodup)
    (hrepo : ∀ a ∈ alerts, a.repo = repo) :
    saveAlerts (saveAlerts db repo alerts ts) repo alerts ts =
      saveAlerts db repo alerts ts := by
  have hkey : ∀ a ∈ alerts,
      a ∈ (saveAlerts db repo alerts ts).alerts ∧
      ∀ r ∈ (saveAlerts db repo alerts ts).alerts,
        r.repo = a.repo → r.alertNumber = a.alertNumber → r = a := by
    intro a ha
    rw [saveAlerts_alerts]
    exact foldl_upsert_key alerts db.alerts a ha hnodup
      (fun x hx => (hrepo x hx).trans (hrepo a ha).symm)
  apply Db_ext
  · rw [saveAlerts_alerts]
    exact foldl_upsert_noop alerts _ hkey
  · rw [saveAlerts_history (saveAlerts db repo alerts ts)]
    have hnil : alerts.filter (fun a =>
        hasChanged (existingPair (saveAlerts db repo alerts ts).alerts repo
          a.alertNumber) a) = [] := by
      apply List.filter_eq_nil_iff.mpr
      intro a ha
      have hpair : existingPair (saveAlerts db repo alerts ts).alerts repo
          a.alertNumber = some (a.state, a.severity) := by
        apply existingPair_some _ _ _ a (hkey a ha).1 (hrepo a ha) rfl
        intro r hr hrp hrn
        exact (hkey a ha).2 r hr (hrp.trans (hrepo a ha).symm) hrn
      rw [hpair]
      simp [hasChanged]
    rw [hnil]
    simp
  · rw [saveAlerts_repoSync, saveAlerts_repoSync]
    exact upsertSync_idem db.repoSync repo ts

/-- C6 witness: a concrete instance of the amended idempotence. -/
theorem saveAlerts_idempotent_witness :
    ((([baseAlert "r" 1 "open" "critical"].map
        (fun a => a.alertNumber)).Nodup) ∧
      (∀ a ∈ [baseAlert "r" 1 "open" "critical"], a.repo = "r")) ∧
    saveAlerts (saveAlerts emptyDb "r" [baseAlert "r" 1 "open" "critical"] 0)
        "r" [baseAlert "r" 1 "open" "critical"] 0 =
      saveAlerts emptyDb "r" [baseAlert "r" 1 "open" "critical"] 0 :=
  ⟨⟨by decide, by decide⟩,
    saveAlerts_idempotent emptyDb "r" [baseAlert "r" 1 "open" "critical"] 0
      (by decide) (by decide)⟩

/-- C6 counterexample: with two entries sharing one alert number and
differing states, a second identical ingestion appends a third history row
and the store is not left byte-for-byte equal, so the claim fails as
stated for arbitrary alert lists. -/
theorem saveAlerts_idempotent_counterexample :
    (saveAlerts (saveAlerts emptyDb "r"
        [baseAlert "r" 1 "open" "high", baseAlert "r" 1 "fixed" "high"] 0)
      "r" [baseAlert "r" 1 "open" "high", baseAlert "r" 1 "fixed" "high"]
      0).history.length = 3 ∧
    (saveAlerts emptyDb "r"
      [baseAlert "r" 1 "open" "high",
        baseAlert "r" 1 "fixed" "high"] 0).history.length = 2 ∧
    saveAlerts (saveAlerts emptyDb "r"
        [baseAlert "r" 1 "open" "high", baseAlert "r" 1 "fixed" "high"] 0)
      "r" [baseAlert "r" 1 "open" "high", baseAlert "r" 1 "fixed" "high"] 0 ≠
      saveAlerts emptyDb "r"
        [baseAlert "r" 1 "open" "high", baseAlert "r" 1 "fixed" "high"] 0 := by
  refine ⟨by decide, by decide, by decide⟩

/-! ### C10 -/

theorem upsertAlertRow_filter_frame (tbl : List NormalizedAlert)
    (a : NormalizedAlert) (r0 : String) (n : Int)
    (hne : ¬(a.repo = r0 ∧ a.alertNumber = n)) :
    (upsertAlertRow tbl a).filter (fun r => r.repo = r0 && r.alertNumber = n) =
      tbl.filter (fun r => r.repo = r0 && r.alertNumber = n) := by
  have hmap : ∀ rs : List NormalizedAlert,
      (rs.map (fun r =>
        if r.repo = a.repo ∧ r.alertNumber = a.alertNumber then a else r)).filter
          (fun r => r.repo = r0 && r.alertNumber = n) =
        rs.filter (fun r => r.repo = r0 && r.alertNumber = n) := by
    intro rs
    induction rs with
    | nil => rfl
    | cons r rs ih =>
      simp only [List.map_cons, List.filter_cons]
      by_cases hm : r.repo = a.repo ∧ r.alertNumber = a.alertNumber
      · rw [if_pos hm]
        have h1 : (decide (a.repo = r0) && decide (a.alertNumber = n)) = false := by
          simpa using fun h1 h2 => hne ⟨h1, h2⟩
        have h2 : (decide (r.repo = r0) && decide (r.alertNumber = n)) = false := by
          simpa using fun hh1 hh2 => hne ⟨hm.1 ▸ hh1, hm.2 ▸ hh2⟩
        rw [h1, h2]
        simpa using ih
      · rw [if_neg hm]
        by_cases hc : (decide (r.repo = r0) && decide (r.alertNumber = n)) = true
        · simp only [hc, if_true]
          rw [ih]
        · rw [Bool.not_eq_true] at hc
          simp only [hc]
          simpa using ih
  unfold upsertAlertRow
  by_cases h : tbl.any (fun r => r.repo = a.repo ∧ r.alertNumber = a.alertNumber)
  · rw [if_pos h]
    exact hmap tbl
  · rw [if_neg h, List.filter_append]
    have : (decide (a.repo = r0) && decide (a.alertNumber = n)) = false := by
      simpa using fun h1 h2 => hne ⟨h1, h2⟩
    simp [this]

theorem foldl_upsert_filter_frame (as : List NormalizedAlert)
    (tbl : List NormalizedAlert) (r0 : String) (n : Int)
    (hne : ∀ a ∈ as, ¬(a.repo = r0 ∧ a.alertNumber = n)) :
    (as.foldl upsertAlertRow tbl).filter
        (fun r => r.repo = r0 && r.alertNumber = n) =
      tbl.filter (fun r => r.repo = r0 && r.alertNumber = n) := by
  induction as generalizing tbl with
  | nil => rfl
  | cons a as ih =>
    simp only [List.foldl_cons]
    rw [ih (upsertAlertRow tbl a) (fun x hx => hne x (List.mem_cons_of_mem _ hx)),
      upsertAlertRow_filter_frame tbl a r0 n (hne a (List.mem_cons_self _ _))]

/-- C10: an ingestion call never touches stored rows whose alert number is
absent from the incoming list: the rows of any (repo, alertNumber) key
with a number outside the list are exactly the rows stored before (every
field unchanged), and no history row is added for such a key — an alert
that disappears from the feed keeps its last known state. -/
theorem saveAlerts_untouched_frame (db : Db) (repo : String)
    (alerts : List NormalizedAlert) (ts : ℚ) (r0 : String) (n : Int)
    (hn : ∀ a ∈ alerts, a.alertNumber ≠ n) :
    (saveAlerts db repo alerts ts).alerts.filter
        (fun r => r.repo = r0 && r.alertNumber = n) =
      db.alerts.filter (fun r => r.repo = r0 && r.alertNumber = n) ∧
    histCount (saveAlerts db repo alerts ts).history r0 n =
      histCount db.history r0 n := by
  constructor
  · rw [saveAlerts_alerts]
    exact foldl_upsert_filter_frame alerts db.alerts r0 n
      (fun a ha hc => hn a ha hc.2)
  · rw [saveAlerts_history]
    unfold histCount
    rw [List.countP_append, List.countP_map]
    have : List.countP
        ((fun e => decide (e.repo = r0) && decide (e.alertNumber = n)) ∘
          mkEvent repo ts)
        (alerts.filter
          (fun a => hasChanged (existingPair db.alerts repo a.alertNumber) a)) =
        0 := by
      apply List.countP_eq_zero.mpr
      intro a ha
      have hmem := List.mem_filter.mp ha
      simp [mkEvent, hn a hmem.1]
    rw [this]
    rfl

/-- C10 witness: a stored row of another alert number survives an
ingestion untouched. -/
theorem saveAlerts_untouched_frame_witness :
    (∀ a ∈ [baseAlert "r" 1 "open" "high"], a.alertNumber ≠ 5) ∧
    ((saveAlerts
          { alerts := [baseAlert "r" 5 "open" "low"],
            history := [],
            repoSync := [] }
        "r" [baseAlert "r" 1 "open" "high"] 0).alerts.filter
        (fun r => r.repo = "r" && r.alertNumber = 5) =
      [baseAlert "r" 5 "open" "low"].filter
        (fun r => r.repo = "r" && r.alertNumber = 5) ∧
      histCount (saveAlerts
          { alerts := [baseAlert "r" 5 "open" "low"],
            history := [],
            repoSync := [] }
        "r" [baseAlert "r" 1 "open" "high"] 0).history "r" 5 =
        histCount ([] : List HistoryEvent) "r" 5) :=
  ⟨by decide,
    saveAlerts_untouched_frame
      { alerts := [baseAlert "r" 5 "open" "low"], history := [], repoSync := [] }
      "r" [baseAlert "r" 1 "open" "high"] 0 "r" 5 (by decide)⟩

/-! ### C2 -/

theorem saveWrites_foldl_flat (db : Db) (repo : String) (ts : ℚ)
    (alerts : List NormalizedAlert) (acc : Db) :
    (alerts.flatMap fun a =>
      (if hasChanged (existingPair db.alerts repo a.alertNumber) a then
        [WriteOp.addHistory (mkEvent repo ts a)]
      else []) ++ [WriteOp.putAlert a]).foldl applyWrite acc =
      alerts.foldl (saveStep db repo ts) acc := by
  induction alerts generalizing acc with
  | nil => rfl
  | cons a as ih =>
    simp only [List.flatMap_cons, List.foldl_append, List.foldl_cons]
    rw [ih]
    congr 1
    by_cases h : hasChanged (existingPair db.alerts repo a.alertNumber) a = true
    · rw [if_pos h]
      simp only [List.foldl_cons, List.foldl_nil]
      unfold saveStep applyWrite
      rw [h]
      rfl
    · rw [Bool.not_eq_true] at h
      rw [if_neg (by simp [h])]
      simp only [List.foldl_cons, List.foldl_nil]
      unfold saveStep applyWrite
      rw [h]
      rfl

theorem saveWrites_commit (db : Db) (repo : String)
    (alerts : List NormalizedAlert) (ts : ℚ) :
    (saveWrites db repo alerts ts).foldl applyWrite db =
      saveAlerts db repo alerts ts := by
  unfold saveWrites
  rw [List.foldl_append, saveWrites_foldl_flat]
  rfl

/-- C2: ingestion is all-or-nothing. Every table write of an ingestion
call is issued inside the single transaction of `saveAlerts`, so under the
rollback-on-failure contract of the transaction a failure at any write
before completion leaves the alerts, history and sync tables exactly as
before the call, and an observer only ever sees the pre-call store or the
fully committed store — never a partial combination. -/
theorem saveAlerts_all_or_nothing (db : Db) (repo : String)
    (alerts : List NormalizedAlert) (ts : ℚ) (k : ℕ) :
    (k < (saveWrites db repo alerts ts).length →
      saveAlertsFaulty db repo alerts ts k = db) ∧
    (saveAlertsFaulty db repo alerts ts k = db ∨
      saveAlertsFaulty db repo alerts ts k = saveAlerts db repo alerts ts) := by
  unfold saveAlertsFaulty
  by_cases hk : k < (saveWrites db repo alerts ts).length
  · rw [if_pos hk]
    exact ⟨fun _ => rfl, Or.inl rfl⟩
  · rw [if_neg hk]
    refine ⟨fun h => absurd h hk, Or.inr ?_⟩
    exact saveWrites_commit db repo alerts ts

/-- C2 witness: a failure at the first write of a concrete ingestion
leaves the store untouched. -/
theorem saveAlerts_all_or_nothing_witness :
    0 < (saveWrites emptyDb "r" [baseAlert "r" 1 "open" "high"] 0).length ∧
    saveAlertsFaulty emptyDb "r" [baseAlert "r" 1 "open" "high"] 0 0 =
      emptyDb :=
  ⟨by decide,
    (saveAlerts_all_or_nothing emptyDb "r" [baseAlert "r" 1 "open" "high"] 0
      0).1 (by decide)⟩

/-! ### C9 -/

theorem mem_foldl_upsert_src (as : List NormalizedAlert)
    (tbl : List NormalizedAlert) (r : NormalizedAlert)
    (hr : r ∈ as.foldl upsertAlertRow tbl) : r ∈ tbl ∨ r ∈ as := by
  induction as generalizing tbl with
  | nil => exact Or.inl hr
  | cons a as ih =>
    simp only [List.foldl_cons] at hr
    rcases ih (upsertAlertRow tbl a) hr with h | h
    · rcases mem_upsertAlertRow_src tbl a r h with h | h
      · exact Or.inr (h ▸ List.mem_cons_self _ _)
      · exact Or.inl h
    · exact Or.inr (List.mem_cons_of_mem _ h)

/-- C9 counterexample: a raw alert whose advisory severity is the string
HIGH is normalized and stored with that exact severity — not lowered, and
not an element of the canonical five-value severity set. -/
theorem severity_stored_verbatim_counterexample :
    (normalizeAlerts "r"
      [{ number := some 1
         state := some "open"
         securityAdvisory := some
          { severity := some "HIGH", ghsaId := none, cveId := none,
            summary := none, cvssScore := none }
         securityVulnerability := none
         dependency := none
         createdAt := none, updatedAt := none, dismissedAt := none
         fixedAt := none, htmlUrl := none, rawText := "raw" }]).map
        (·.severity) = ["HIGH"] ∧
    (saveAlerts emptyDb "r"
      (normalizeAlerts "r"
        [{ number := some 1
           state := some "open"
           securityAdvisory := some
            { severity := some "HIGH", ghsaId := none, cveId := none,
              summary := none, cvssScore := none }
           securityVulnerability := none
           dependency := none
           createdAt := none, updatedAt := none, dismissedAt := none
           fixedAt := none, htmlUrl := none, rawText := "raw" }]) 0).alerts.map
        (·.severity) = ["HIGH"] ∧
    "HIGH" ≠ "high" ∧
    "HIGH" ∉ ["critical", "high", "medium", "low", "unknown"] := by
  refine ⟨by decide, by decide, by decide, by decide⟩

/-- C9 (amended): the normalizer reads the severity from the advisory
field, then the vulnerability field, then falls back to the string
unknown, and keeps it verbatim — no lower-casing and no restriction to the
five canonical values happens on the write path; ingestion stores rows and
history severities verbatim (rows of the updated table come from the prior
table or the incoming list, history severities from the incoming list).
Lower-casing is applied only on read paths. -/
theorem severity_stored_verbatim (repo : String) (raws : List RawAlert)
    (db : Db) (rp : String) (alerts : List NormalizedAlert) (ts : ℚ) :
    ((normalizeAlerts repo raws).map (·.severity) =
      raws.map (fun a => ((a.securityAdvisory.bind (·.severity)).or
        (a.securityVulnerability.bind (·.severity))).getD "unknown")) ∧
    (∀ r ∈ (saveAlerts db rp alerts ts).alerts, r ∈ db.alerts ∨ r ∈ alerts) ∧
    (∀ e ∈ (saveAlerts db rp alerts ts).history,
      e ∈ db.history ∨ ∃ a ∈ alerts, e.severity = a.severity) := by
  refine ⟨?_, ?_, ?_⟩
  · simp [normalizeAlerts]
  · intro r hr
    rw [saveAlerts_alerts] at hr
    exact mem_foldl_upsert_src alerts db.alerts r hr
  · intro e he
    rw [saveAlerts_history] at he
    rcases List.mem_append.mp he with h | h
    · exact Or.inl h
    · obtain ⟨a, ha, hae⟩ := List.mem_map.mp h
      exact Or.inr ⟨a, (List.mem_filter.mp ha).1, by rw [← hae]; rfl⟩

/-- C9 witness: the verbatim-storage statement instantiated on a concrete
store and row. -/
theorem severity_stored_verbatim_witness :
    baseAlert "r" 1 "open" "HIGH" ∈
      (saveAlerts emptyDb "r" [baseAlert "r" 1 "open" "HIGH"] 0).alerts ∧
    (baseAlert "r" 1 "open" "HIGH" ∈ emptyDb.alerts ∨
      baseAlert "r" 1 "open" "HIGH" ∈ [baseAlert "r" 1 "open" "HIGH"]) :=
  ⟨by decide,
    (severity_stored_verbatim "r" [] emptyDb "r"
        [baseAlert "r" 1 "open" "HIGH"] 0).2.1
      (baseAlert "r" 1 "open" "HIGH") (by decide)⟩

/-! ### C8 -/

theorem charsCmp_swap (a b : List Char) : charsCmp a b = -charsCmp b a := by
  induction a generalizing b with
  | nil => cases b <;> simp [charsCmp]
  | cons x xs ih =>
    cases b with
    | nil => simp [charsCmp]
    | cons y ys =>
      simp only [charsCmp]
      rcases Nat.lt_trichotomy x.toNat y.toNat with h | h | h
      · rw [if_pos h, if_neg (by omega), if_pos h]
      · rw [if_neg (by omega), if_neg (by omega), if_neg (by omega),
          if_neg (by omega)]
        exact ih ys
      · rw [if_neg (by omega), if_pos h, if_pos h]
        omega

theorem charsCmp_le_trans (a b c : List Char) (hab : charsCmp a b ≤ 0)
    (hbc : charsCmp b c ≤ 0) : charsCmp a c ≤ 0 := by
  induction a generalizing b c with
  | nil => cases c <;> simp [charsCmp]
  | cons x xs ih =>
    cases b with
    | nil => simp [charsCmp] at hab
    | cons y ys =>
      cases c with
      | nil => simp [charsCmp] at hbc
      | cons z zs =>
        simp only [charsCmp] at hab hbc ⊢
        split_ifs at hab hbc ⊢ <;> first
          | omega
          | exact ih ys zs hab hbc

theorem alertCmp_le_trans (a b c : NormalizedAlert)
    (hab : alertCmp a b ≤ 0) (hbc : alertCmp b c ≤ 0) : alertCmp a c ≤ 0 := by
  unfold alertCmp at hab hbc ⊢
  by_cases h1 : severityRank a.severity ≠ severityRank b.severity <;>
    by_cases h2 : severityRank b.severity ≠ severityRank c.severity
  · rw [if_pos h1] at hab
    rw [if_pos h2] at hbc
    rw [if_pos (by omega)]
    omega
  · rw [not_not] at h2
    rw [if_pos h1] at hab
    rw [if_pos (by omega)]
    omega
  · rw [not_not] at h1
    rw [if_pos h2] at hbc
    rw [if_pos (by omega)]
    omega
  · rw [not_not] at h1 h2
    rw [if_neg (by omega)] at hab
    rw [if_neg (by omega)] at hbc
    rw [if_neg (by omega)]
    exact charsCmp_le_trans _ _ _ hbc hab

theorem alertCmp_le_total (a b : NormalizedAlert) :
    alertCmp a b ≤ 0 ∨ alertCmp b a ≤ 0 := by
  unfold alertCmp
  by_cases h : severityRank a.severity ≠ severityRank b.severity
  · rw [if_pos h, if_pos (by omega)]
    omega
  · rw [not_not] at h
    rw [if_neg (by omega), if_neg (by omega)]
    have := charsCmp_swap (b.createdAt.getD "").data (a.createdAt.getD "").data
    unfold strCmp
    omega

instance : IsTrans NormalizedAlert alertLe :=
  ⟨fun a b c => alertCmp_le_trans a b c⟩

instance : IsTotal NormalizedAlert alertLe :=
  ⟨fun a b => alertCmp_le_total a b⟩

/-- C8: the per-repo read returns a permutation of the cached rows,
pairwise ordered by ascending severity rank — with the five canonical
severities ranked critical, high, medium, low, unknown in that order — and,
among equal severities (case-insensitively), by descending createdAt; and
the cache flag is true exactly when a sync record for the repo exists. -/
theorem getRepoAlerts_sorted_hasCache (db : Db) (repo : String) :
    (getRepoAlerts db repo).1.Perm (getCachedAlerts db repo).1 ∧
    List.Pairwise (fun x y : NormalizedAlert =>
      severityRank x.severity ≤ severityRank y.severity)
      (getRepoAlerts db repo).1 ∧
    List.Pairwise (fun x y : NormalizedAlert =>
      asciiLower x.severity = asciiLower y.severity →
        strCmp (y.createdAt.getD "") (x.createdAt.getD "") ≤ 0)
      (getRepoAlerts db repo).1 ∧
    (severityRank "critical" = 0 ∧ severityRank "high" = 1 ∧
      severityRank "medium" = 2 ∧ severityRank "low" = 3 ∧
      severityRank "unknown" = 4) ∧
    ((getCachedAlerts db repo).2.2 = true ↔ ∃ p ∈ db.repoSync, p.1 = repo) := by
  have hsorted : List.Pairwise alertLe (getRepoAlerts db repo).1 :=
    List.sorted_insertionSort alertLe (getCachedAlerts db repo).1
  refine ⟨?_, ?_, ?_, ⟨by decide, by decide, by decide, by decide, by decide⟩, ?_⟩
  · exact List.perm_insertionSort alertLe (getCachedAlerts db repo).1
  · refine hsorted.imp ?_
    intro x y hxy
    unfold alertLe alertCmp at hxy
    by_cases h : severityRank x.severity ≠ severityRank y.severity
    · rw [if_pos h] at hxy
      omega
    · omega
  · refine hsorted.imp ?_
    intro x y hxy hsev
    unfold alertLe alertCmp at hxy
    have hrank : severityRank x.severity = severityRank y.severity := by
      unfold severityRank
      rw [hsev]
    rw [if_neg (by omega)] at hxy
    exact hxy
  · unfold getCachedAlerts
    cases hf : db.repoSync.find? (fun p => p.1 = repo) with
    | none =>
      constructor
      · intro h
        simp at h
      · intro hex
        obtain ⟨q, hq, hqr⟩ := hex
        have h2 := List.find?_eq_none.mp hf q hq
        simp [hqr] at h2
    | some p =>
      constructor
      · intro _
        exact ⟨p, List.mem_of_find?_eq_some hf, by
          simpa using List.find?_some hf⟩
      · intro _
        rfl

/-! ### C5 -/

theorem round1_intCast (L : ℤ) : round1 (L : ℚ) = (L : ℚ) := by
  unfold round1 jsRound
  have h : ⌊10 * (L : ℚ) + 1 / 2⌋ = 10 * L := by
    rw [Int.floor_eq_iff]
    constructor
    · push_cast
      linarith
    · push_cast
      linarith
  rw [h]
  push_cast
  ring

theorem round1_intCast_add_tenth (L : ℤ) :
    round1 ((L : ℚ) + 1 / 10) = (L : ℚ) + 1 / 10 := by
  unfold round1 jsRound
  have h : ⌊10 * ((L : ℚ) + 1 / 10) + 1 / 2⌋ = 10 * L + 1 := by
    rw [Int.floor_eq_iff]
    constructor
    · push_cast
      linarith
    · push_cast
      linarith
  rw [h]
  push_cast
  ring

instance : IsTrans SlaViolation slaLe :=
  ⟨fun a b c hab hbc => by unfold slaLe at *; linarith⟩

instance : IsTotal SlaViolation slaLe where
  total a b := by
    unfold slaLe
    rcases le_total (b.openDays - b.slaLimitDays)
      (a.openDays - a.slaLimitDays) with h | h
    · left
      linarith
    · right
      linarith

/-- C5: every entry of the SLA check corresponds to a currently open alert
joined to its very first history event, with openDays the rounded
distance from now to that event and overdue exactly when openDays strictly
exceeds the per-severity limit; every open alert with history yields an
entry; the list is sorted by descending (openDays − limit); the default
limit table is critical 2, high 7, medium 30, low 90; and with a limit of
L days an alert open exactly L days is not overdue while L + 0.1 days is
overdue. -/
theorem getSlaViolations_spec (db : Db) (cfg : List (String × ℚ)) (now : ℚ) :
    (∀ v ∈ getSlaViolations db cfg now,
      v.overdue = decide (v.openDays > v.slaLimitDays)) ∧
    List.Pairwise (fun x y : SlaViolation =>
      y.openDays - y.slaLimitDays ≤ x.openDays - x.slaLimitDays)
      (getSlaViolations db cfg now) ∧
    (∀ v ∈ getSlaViolations db cfg now,
      ∃ a ∈ db.alerts, ∃ e : HistoryEvent, a.state = "open" ∧
        db.history.find?
          (fun x => x.repo = a.repo && x.alertNumber = a.alertNumber) = some e ∧
        v.repo = a.repo ∧ v.alertNumber = a.alertNumber ∧
        v.severity = asciiLower a.severity ∧ v.firstSeen = e.recordedAt ∧
        v.openDays = round1 (now - e.recordedAt) ∧
        v.slaLimitDays = slaLimitFor cfg (asciiLower a.severity)) ∧
    (∀ a ∈ db.alerts, a.state = "open" →
      ∀ e, db.history.find?
          (fun x => x.repo = a.repo && x.alertNumber = a.alertNumber) = some e →
      ∃ v ∈ getSlaViolations db cfg now,
        v.repo = a.repo ∧ v.alertNumber = a.alertNumber) ∧
    (slaLimitFor [] "critical" = 2 ∧ slaLimitFor [] "high" = 7 ∧
      slaLimitFor [] "medium" = 30 ∧ slaLimitFor [] "low" = 90) ∧
    (∀ L : ℤ, decide (round1 (L : ℚ) > (L : ℚ)) = false ∧
      decide (round1 ((L : ℚ) + 1 / 10) > (L : ℚ)) = true) := by
  have hperm := List.perm_insertionSort slaLe
    ((slaJoinRows db).map fun r =>
      let sev := asciiLower r.1.severity
      let lim := slaLimitFor cfg sev
      let od := round1 (now - r.2.recordedAt)
      ({ repo := r.1.repo
         alertNumber := r.1.alertNumber
         severity := sev
         packageName := r.1.packageName
         htmlUrl := r.1.htmlUrl
         firstSeen := r.2.recordedAt
         openDays := od
         slaLimitDays := lim
         overdue := decide (od > lim) } : SlaViolation))
  refine ⟨?_, ?_, ?_, ?_, ⟨by decide, by decide, by decide, by decide⟩, ?_⟩
  · intro v hv
    have hv2 := hperm.mem_iff.mp hv
    obtain ⟨r, _, hr⟩ := List.mem_map.mp hv2
    rw [← hr]
  · exact (List.sorted_insertionSort slaLe _).imp
      (fun {x y} h => by unfold slaLe at h; linarith)
  · intro v hv
    have hv2 := hperm.mem_iff.mp hv
    obtain ⟨r, hrmem, hr⟩ := List.mem_map.mp hv2
    obtain ⟨a, hamem, ha⟩ := List.mem_filterMap.mp hrmem
    by_cases hst : a.state = "open"
    · rw [if_pos hst] at ha
      cases hfind : db.history.find?
          (fun e => e.repo = a.repo && e.alertNumber = a.alertNumber) with
      | none => rw [hfind] at ha; cases ha
      | some h0 =>
        rw [hfind] at ha
        obtain rfl : (a, h0) = r := by simpa using ha
        exact ⟨a, hamem, h0, hst, hfind, by rw [← hr], by rw [← hr], by rw [← hr],
          by rw [← hr], by rw [← hr], by rw [← hr]⟩
    · rw [if_neg hst] at ha
      cases ha
  · intro a hamem hst e hfind
    refine ⟨_, hperm.mem_iff.mpr (List.mem_map.mpr
      ⟨(a, e), List.mem_filterMap.mpr ⟨a, hamem, ?_⟩, rfl⟩), rfl, rfl⟩
    rw [if_pos hst, hfind]
  · intro L
    constructor
    · rw [round1_intCast]
      simp
    · rw [round1_intCast_add_tenth]
      simp only [decide_eq_true_eq]
      norm_num

/-! ### C7 -/

theorem refreshStep_foldl_count (fetch : String → Option (List RawAlert))
    (ts : ℚ) (rps : List String) (acc : Db × List (String × Bool) × ℕ) :
    (rps.foldl (refreshStep fetch ts) acc).2.2 = acc.2.2 + rps.length := by
  induction rps generalizing acc with
  | nil => rfl
  | cons rp rps ih =>
    simp only [List.foldl_cons]
    rw [ih]
    unfold refreshStep
    cases fetch rp <;> simp <;> omega

/-- C7 (amended): only the cron-scheduled callback consults the running
flag — while a refresh is marked running a tick is a pure skip (state and
store unchanged, zero fetches, skip reported only as a log line); the
manual refresh-all endpoint never reads the flag and always performs one
fetch per tracked repository, so a manual bulk refresh is not prevented
from running while another refresh is in progress. -/
theorem refresh_running_guard (s : SchedulerState) (db : Db)
    (fetch : String → Option (List RawAlert)) (ts : ℚ)
    (h : s.running = true) :
    cronTick s db fetch ts = (s, db, 0, true) ∧
    (refreshAllEndpoint s db fetch ts).2.2 =
      (getAllRepoSummaries db).length := by
  constructor
  · unfold cronTick
    rw [if_pos h]
  · unfold refreshAllEndpoint refreshAllRepos
    simp only []
    rw [refreshStep_foldl_count]
    simp

/-- C7 counterexample: with a refresh marked running and one tracked repo,
the refresh-all endpoint still performs one fetch — not zero — and its
result is an ordinary batch report, while only the cron tick skips. -/
theorem refresh_running_guard_counterexample :
    (refreshAllEndpoint runningState demoDb (fun _ => some []) 0).2.2 = 1 ∧
    (1 : ℕ) ≠ 0 ∧
    (cronTick runningState demoDb (fun _ => some []) 0).2.2.1 = 0 := by
  refine ⟨by decide, by decide, by decide⟩

/-- C7 witness: the guard statement at a concrete running state. -/
theorem refresh_running_guard_witness :
    runningState.running = true ∧
    cronTick runningState demoDb (fun _ => none) 0 =
      (runningState, demoDb, 0, true) :=
  ⟨rfl, (refresh_running_guard runningState demoDb (fun _ => none) 0 rfl).1⟩

/-! ### dedupFirst and search lemmas -/

theorem foldl_dedup_mem {α : Type} [DecidableEq α] (l : List α)
    (acc : List α) (x : α) :
    (x ∈ l.foldl (fun acc y => if y ∈ acc then acc else acc ++ [y]) acc) ↔
      x ∈ acc ∨ x ∈ l := by
  induction l generalizing acc with
  | nil => simp
  | cons y ys ih =>
    simp only [List.foldl_cons]
    rw [ih]
    by_cases hy : y ∈ acc
    · rw [if_pos hy]
      constructor
      · intro h
        rcases h with h | h
        · exact Or.inl h
        · exact Or.inr (List.mem_cons_of_mem _ h)
      · intro h
        rcases h with h | h
        · exact Or.inl h
        · rcases List.mem_cons.mp h with h | h
          · exact Or.inl (h ▸ hy)
          · exact Or.inr h
    · rw [if_neg hy]
      simp only [List.mem_append, List.mem_singleton, List.mem_cons]
      tauto

theorem mem_dedupFirst {α : Type} [DecidableEq α] (l : List α) (x : α) :
    x ∈ dedupFirst l ↔ x ∈ l := by
  unfold dedupFirst
  rw [foldl_dedup_mem]
  simp

theorem foldl_dedup_nodup {α : Type} [DecidableEq α] (l : List α)
    (acc : List α) (hacc : acc.Nodup) :
    (l.foldl (fun acc y => if y ∈ acc then acc else acc ++ [y]) acc).Nodup := by
  induction l generalizing acc with
  | nil => exact hacc
  | cons y ys ih =>
    simp only [List.foldl_cons]
    by_cases hy : y ∈ acc
    · rw [if_pos hy]
      exact ih acc hacc
    · rw [if_neg hy]
      refine ih _ ?_
      simp [List.nodup_append, hacc, hy]

theorem nodup_dedupFirst {α : Type} [DecidableEq α] (l : List α) :
    (dedupFirst l).Nodup :=
  foldl_dedup_nodup l [] List.nodup_nil

theorem find?_eq_of_findIdx?_eq_some {α : Type} {p : α → Bool}
    {l : List α} {i : ℕ} (h : l.findIdx? p = some i) :
    ∃ x, l[i]? = some x ∧ l.find? p = some x := by
  induction l generalizing i with
  | nil => simp at h
  | cons a as ih =>
    rw [List.findIdx?_cons] at h
    by_cases hp : p a
    · rw [if_pos hp] at h
      obtain rfl : 0 = i := by simpa using h
      exact ⟨a, by simp, by simp [List.find?_cons, hp]⟩
    · rw [if_neg hp, List.findIdx?_succ] at h
      obtain ⟨j, hj, rfl⟩ : ∃ j, as.findIdx? p = some j ∧ j + 1 = i := by
        cases hja : as.findIdx? p with
        | none => rw [hja] at h; simp at h
        | some j => rw [hja] at h; exact ⟨j, rfl, by simpa using h⟩
      obtain ⟨x, hx1, hx2⟩ := ih hj
      refine ⟨x, by simpa using hx1, ?_⟩
      rw [List.find?_cons]
      simp only [hp]
      exact hx2

theorem findIdx?_of_find?_eq_some {α : Type} {p : α → Bool}
    {l : List α} {x : α} (h : l.find? p = some x) :
    ∃ i, l.findIdx? p = some i ∧ l[i]? = some x := by
  induction l with
  | nil => simp at h
  | cons a as ih =>
    rw [List.find?_cons] at h
    by_cases hp : p a
    · simp only [hp, cond_true] at h
      obtain rfl : a = x := by simpa using h
      exact ⟨0, by rw [List.findIdx?_cons, if_pos hp], by simp⟩
    · simp only [Bool.not_eq_true] at hp
      simp only [hp, cond_false] at h
      obtain ⟨i, hi1, hi2⟩ := ih h
      refine ⟨i + 1, ?_, by simpa using hi2⟩
      rw [List.findIdx?_cons, if_neg (by simp [hp]), List.findIdx?_succ, hi1]
      rfl

/-! ### C4 -/

theorem mttrPhi_some (hist : List HistoryEvent) (f : Option String)
    (ie : ℕ × HistoryEvent) (r : MttrRow) (h : mttrPhi hist f ie = some r) :
    ie.2.state = "open" ∧
    hist.findIdx? (isOpenFor ie.2.repo ie.2.alertNumber) = some ie.1 ∧
    repoFilterOk f ie.2.repo = true ∧
    ∃ e2, hist.find? (isResFor ie.2.repo ie.2.alertNumber) = some e2 ∧
      r = { repo := ie.2.repo, alertNumber := ie.2.alertNumber,
            severity := ie.2.severity,
            elapsed := e2.recordedAt - ie.2.recordedAt } := by
  unfold mttrPhi at h
  by_cases hc : ie.2.state = "open" ∧
      hist.findIdx? (isOpenFor ie.2.repo ie.2.alertNumber) = some ie.1 ∧
      repoFilterOk f ie.2.repo
  · rw [if_pos hc] at h
    cases hfind : hist.find? (isResFor ie.2.repo ie.2.alertNumber) with
    | none => rw [hfind] at h; cases h
    | some e2 =>
      rw [hfind] at h
      exact ⟨hc.1, hc.2.1, hc.2.2, e2, rfl, (Option.some.inj h).symm⟩
  · rw [if_neg hc] at h
    cases h

theorem mttrPhi_key_idx (hist : List HistoryEvent) (f : Option String)
    (ie : ℕ × HistoryEvent) (r : MttrRow) (h : mttrPhi hist f ie = some r) :
    hist.findIdx? (isOpenFor r.repo r.alertNumber) = some ie.1 := by
  obtain ⟨-, hidx, -, e2, -, hre⟩ := mttrPhi_some hist f ie r h
  rw [hre]
  exact hidx

theorem mem_mttrJoinRows_iff (hist : List HistoryEvent) (f : Option String)
    (r : MttrRow) :
    r ∈ mttrJoinRows hist f ↔
      ∃ o e2, firstOpenEvent hist (r.repo, r.alertNumber) = some o ∧
        firstResEvent hist (r.repo, r.alertNumber) = some e2 ∧
        repoFilterOk f r.repo = true ∧ r.severity = o.severity ∧
        r.elapsed = e2.recordedAt - o.recordedAt := by
  constructor
  · intro hr
    obtain ⟨ie, hie, hphi⟩ := List.mem_filterMap.mp hr
    obtain ⟨hst, hidx, hok, e2, hfind, hre⟩ := mttrPhi_some hist f ie r hphi
    obtain ⟨x, hx1, hx2⟩ := find?_eq_of_findIdx?_eq_some hidx
    have hget := List.mem_enum_iff_getElem?.mp hie
    rw [hget] at hx1
    obtain rfl : x = ie.2 := (Option.some.inj hx1).symm
    subst hre
    exact ⟨ie.2, e2, hx2, hfind, hok, rfl, rfl⟩
  · intro hcond
    obtain ⟨o, e2, ho, he2, hok, hsev, hel⟩ := hcond
    have hoP := List.find?_some ho
    unfold isOpenFor at hoP
    simp only [Bool.and_eq_true, decide_eq_true_eq] at hoP
    obtain ⟨⟨horepo, honum⟩, host⟩ := hoP
    obtain ⟨i, hidx, hget⟩ := findIdx?_of_find?_eq_some ho
    refine List.mem_filterMap.mpr ⟨(i, o), List.mem_enum_iff_getElem?.mpr hget, ?_⟩
    unfold mttrPhi
    rw [if_pos ⟨host, by rw [horepo, honum]; exact hidx, by rw [horepo]; exact hok⟩]
    have hres : hist.find? (isResFor o.repo o.alertNumber) = some e2 := by
      rw [horepo, honum]
      exact he2
    rw [hres]
    cases r with
    | mk rrepo rnum rsev rel =>
      simp only [Option.some.injEq, MttrRow.mk.injEq]
      simp only at horepo honum hsev hel
      exact ⟨horepo, honum, hsev.symm, hel.symm⟩

theorem filterMap_mttrPhi_keys_nodup (hist : List HistoryEvent)
    (f : Option String) (l : List (ℕ × HistoryEvent))
    (hl : (l.map Prod.fst).Nodup) :
    ((l.filterMap (mttrPhi hist f)).map
      (fun r => (r.repo, r.alertNumber))).Nodup := by
  induction l with
  | nil => simp
  | cons ie rest ih =>
    simp only [List.map_cons, List.nodup_cons] at hl
    rw [List.filterMap_cons]
    cases hphi : mttrPhi hist f ie with
    | none => exact ih hl.2
    | some r =>
      simp only [List.map_cons, List.nodup_cons]
      refine ⟨?_, ih hl.2⟩
      intro hmem
      obtain ⟨r', hr', hkey⟩ := List.mem_map.mp hmem
      obtain ⟨ie', hie', hphi'⟩ := List.mem_filterMap.mp hr'
      have h1 := mttrPhi_key_idx hist f ie r hphi
      have h2 := mttrPhi_key_idx hist f ie' r' hphi'
      have hkr : r'.repo = r.repo ∧ r'.alertNumber = r.alertNumber := by
        constructor
        · exact congrArg Prod.fst hkey
        · exact congrArg Prod.snd hkey
      rw [hkr.1, hkr.2] at h2
      rw [h1] at h2
      have : ie'.1 = ie.1 := by
        have := h2
        simp only [Option.some.injEq] at this
        omega
      exact hl.1 (this ▸ List.mem_map.mpr ⟨ie', hie', rfl⟩)

theorem mttrJoinRows_keys_nodup (hist : List HistoryEvent) (f : Option String) :
    ((mttrJoinRows hist f).map (fun r => (r.repo, r.alertNumber))).Nodup := by
  apply filterMap_mttrPhi_keys_nodup
  rw [List.enum_map_fst]
  exact List.nodup_range _

theorem mttrJoinRows_nodup (hist : List HistoryEvent) (f : Option String) :
    (mttrJoinRows hist f).Nodup :=
  List.Nodup.of_map _ (mttrJoinRows_keys_nodup hist f)

theorem mttr_group_perm (hist : List HistoryEvent) (f : Option String)
    (rp sv : String) :
    ((mttrJoinRows hist f).filter
        (fun r => r.repo = rp ∧ r.severity = sv)).Perm
      (((alertKeys hist).filter (mttrSpecQualifies hist f rp sv)).map
        (mttrRowOf hist)) := by
  apply List.perm_of_nodup_nodup_toFinset_eq
  · exact (mttrJoinRows_nodup hist f).filter _
  · apply List.Nodup.map_on ?_ ((nodup_dedupFirst _).filter _)
    intro k1 _ k2 _ heq
    have h1 : (mttrRowOf hist k1).repo = k1.1 := rfl
    have h2 : (mttrRowOf hist k1).alertNumber = k1.2 := rfl
    have h3 : (mttrRowOf hist k2).repo = k2.1 := rfl
    have h4 : (mttrRowOf hist k2).alertNumber = k2.2 := rfl
    have : k1.1 = k2.1 := by rw [← h1, ← h3, heq]
    have : k1.2 = k2.2 := by rw [← h2, ← h4, heq]
    exact Prod.ext (by rw [← h1, ← h3, heq]) (by rw [← h2, ← h4, heq])
  · ext r
    simp only [List.mem_toFinset, List.mem_filter, List.mem_map,
      Bool.and_eq_true, decide_eq_true_eq]
    rw [mem_mttrJoinRows_iff]
    constructor
    · rintro ⟨⟨o, e2, ho, he2, hok, hsev, hel⟩, hrp, hsv⟩
      have hoP := List.find?_some ho
      unfold isOpenFor at hoP
      simp only [Bool.and_eq_true, decide_eq_true_eq] at hoP
      obtain ⟨⟨horepo, honum⟩, _⟩ := hoP
      refine ⟨(r.repo, r.alertNumber), ⟨?_, ?_⟩, ?_⟩
      · unfold alertKeys
        rw [mem_dedupFirst]
        refine List.mem_map.mpr ⟨o, List.mem_of_find?_eq_some ho, ?_⟩
        unfold keyOf
        rw [horepo, honum]
      · unfold mttrSpecQualifies
        rw [ho, he2]
        simp [hrp, hrp ▸ hok, hsv ▸ hsev.symm]
      · unfold mttrRowOf mttrSpecElapsed
        rw [ho, he2]
        cases r with
        | mk rrepo rnum rsev rel =>
          simp only at hsev hel
          simp [hsev, hel]
    · rintro ⟨k, ⟨hkmem, hq⟩, hrk⟩
      unfold mttrSpecQualifies at hq
      simp only [Bool.and_eq_true, decide_eq_true_eq] at hq
      cases hfo : firstOpenEvent hist k with
      | none => rw [hfo] at hq; simp at hq
      | some o =>
        rw [hfo] at hq
        obtain ⟨⟨⟨hk1, hokk⟩, hosev⟩, hres⟩ := hq
        cases hfr : firstResEvent hist k with
        | none => rw [hfr] at hres; simp at hres
        | some e2 =>
          simp only [decide_eq_true_eq] at hosev
          have hkey : (k.1, k.2) = k := rfl
          have hrepo : r.repo = k.1 := by rw [← hrk]; rfl
          have hnum : r.alertNumber = k.2 := by rw [← hrk]; rfl
          have hsev : r.severity = o.severity := by
            rw [← hrk]
            unfold mttrRowOf
            rw [hfo]
          have hel : r.elapsed = e2.recordedAt - o.recordedAt := by
            rw [← hrk]
            unfold mttrRowOf mttrSpecElapsed
            rw [hfo, hfr]
          refine ⟨⟨o, e2, ?_, ?_, ?_, hsev, hel⟩, ?_, ?_⟩
          · rw [hrepo, hnum, hkey]
            exact hfo
          · rw [hrepo, hnum, hkey]
            exact hfr
          · rw [hrepo, hk1]
            rw [hk1] at hokk
            exact hokk
          · rw [hrepo, hk1]
          · rw [hsev, hosev]

theorem mttr_group_stats (hist : List HistoryEvent) (f : Option String)
    (rp sv : String) :
    ((mttrJoinRows hist f).filter
      (fun r => r.repo = rp ∧ r.severity = sv)).length =
      ((alertKeys hist).filter (mttrSpecQualifies hist f rp sv)).length ∧
    (((mttrJoinRows hist f).filter
      (fun r => r.repo = rp ∧ r.severity = sv)).map (·.elapsed)).sum =
      (((alertKeys hist).filter (mttrSpecQualifies hist f rp sv)).map
        (mttrSpecElapsed hist)).sum := by
  have hperm := mttr_group_perm hist f rp sv
  constructor
  · rw [hperm.length_eq, List.length_map]
  · have := (hperm.map (·.elapsed)).sum_eq
    rw [this, List.map_map]
    rfl

theorem mem_getMttrMetrics_iff (db : Db) (f : Option String)
    (m : MttrMetric) :
    m ∈ getMttrMetrics db f ↔
      ∃ rp sv, m.repo = rp ∧ m.severity = asciiLower sv ∧
        ((alertKeys db.history).filter
          (mttrSpecQualifies db.history f rp sv) ≠ [] ∧
        m.resolvedCount = ((alertKeys db.history).filter
          (mttrSpecQualifies db.history f rp sv)).length ∧
        m.avgDays = round1
          ((((alertKeys db.history).filter
              (mttrSpecQualifies db.history f rp sv)).map
            (mttrSpecElapsed db.history)).sum /
            (((alertKeys db.history).filter
              (mttrSpecQualifies db.history f rp sv)).length : ℚ))) := by
  unfold getMttrMetrics
  constructor
  · intro hm
    obtain ⟨key, hkey, hmk⟩ := List.mem_map.mp hm
    obtain ⟨row, hrow, hrk⟩ := List.mem_map.mp ((mem_dedupFirst _ _).mp hkey)
    obtain ⟨hlen, hsum⟩ := mttr_group_stats db.history f key.1 key.2
    have hg : row ∈ (mttrJoinRows db.history f).filter
        (fun r => r.repo = key.1 ∧ r.severity = key.2) := by
      refine List.mem_filter.mpr ⟨hrow, ?_⟩
      rw [← hrk]
      simp [mttrGroupKey]
    refine ⟨key.1, key.2, ?_, ?_, ?_, ?_, ?_⟩
    · rw [← hmk]; rfl
    · rw [← hmk]; rfl
    · intro hq
      rw [hq] at hlen
      simp only [List.length_nil] at hlen
      exact (List.ne_nil_of_mem hg) (List.eq_nil_of_length_eq_zero hlen)
    · rw [← hmk]
      exact hlen
    · rw [← hmk]
      show round1 _ = _
      rw [← hlen, ← hsum]
  · rintro ⟨rp, sv, hrepo, hsev, hne, hcount, havg⟩
    obtain ⟨k, hkq⟩ := List.exists_mem_of_ne_nil _ hne
    have hkmem := (List.mem_filter.mp hkq).1
    have hq := (List.mem_filter.mp hkq).2
    have hqd := hq
    unfold mttrSpecQualifies at hqd
    simp only [Bool.and_eq_true, decide_eq_true_eq] at hqd
    cases hfo : firstOpenEvent db.history k with
    | none => rw [hfo] at hqd; simp at hqd
    | some o =>
      rw [hfo] at hqd
      obtain ⟨⟨⟨hk1, _⟩, hosev⟩, _⟩ := hqd
      simp only [decide_eq_true_eq] at hosev
      have hrowg : mttrRowOf db.history k ∈
          (mttrJoinRows db.history f).filter
            (fun r => r.repo = rp ∧ r.severity = sv) :=
        (mttr_group_perm db.history f rp sv).mem_iff.mpr
          (List.mem_map.mpr ⟨k, hkq, rfl⟩)
      have hrowmem := (List.mem_filter.mp hrowg).1
      have hkey : (rp, sv) ∈ dedupFirst
          ((mttrJoinRows db.history f).map mttrGroupKey) := by
        rw [mem_dedupFirst]
        refine List.mem_map.mpr ⟨mttrRowOf db.history k, hrowmem, ?_⟩
        unfold mttrGroupKey mttrRowOf
        rw [hfo]
        simp [hk1, hosev]
      refine List.mem_map.mpr ⟨(rp, sv), hkey, ?_⟩
      obtain ⟨hlen, hsum⟩ := mttr_group_stats db.history f rp sv
      cases m with
      | mk mr ms ma mc =>
        simp only at hrepo hsev hcount havg
        unfold mttrMetricOf
        simp only [MttrMetric.mk.injEq]
        refine ⟨hrepo.symm, hsev.symm, ?_, ?_⟩
        · rw [hsum, hlen, havg]
        · rw [hlen, hcount]

/-- C4 (amended): the MTTR metrics are exactly one entry per (repo,
first-open severity) group with at least one alert having both an open
and a fixed-or-dismissed event in its history: the entry counts those
alerts and averages, rounded to one decimal, the elapsed days from each
alert's first open event to its first resolution event — in log order or
not, so the elapsed value of an alert whose first resolution precedes its
first open event is negative. Alerts with no resolution event contribute
nothing. In particular, a single critical alert opened at day 0 and fixed
at day 9 yields avgDays 9.0 with resolvedCount 1. -/
theorem getMttrMetrics_amended :
    (∀ (db : Db) (f : Option String) (m : MttrMetric),
      m ∈ getMttrMetrics db f ↔
        ∃ rp sv, m.repo = rp ∧ m.severity = asciiLower sv ∧
          ((alertKeys db.history).filter
            (mttrSpecQualifies db.history f rp sv) ≠ [] ∧
          m.resolvedCount = ((alertKeys db.history).filter
            (mttrSpecQualifies db.history f rp sv)).length ∧
          m.avgDays = round1
            ((((alertKeys db.history).filter
                (mttrSpecQualifies db.history f rp sv)).map
              (mttrSpecElapsed db.history)).sum /
              (((alertKeys db.history).filter
                (mttrSpecQualifies db.history f rp sv)).length : ℚ)))) ∧
    getMttrMetrics exampleDb none =
      [{ repo := "acme/widget", severity := "critical", avgDays := 9,
         resolvedCount := 1 }] := by
  refine ⟨mem_getMttrMetrics_iff, ?_⟩
  have hex : exampleDb.history =
      [{ repo := "acme/widget", alertNumber := 1, state := "open",
         severity := "critical", recordedAt := 0, rawJson := "raw" },
       { repo := "acme/widget", alertNumber := 1, state := "fixed",
         severity := "critical", recordedAt := 9, rawJson := "raw" }] := by
    decide
  have hrows : mttrJoinRows exampleDb.history none =
      [{ repo := "acme/widget", alertNumber := 1, severity := "critical",
         elapsed := 9 }] := by
    rw [hex]
    norm_num [mttrJoinRows, mttrPhi, isOpenFor, isResFor, repoFilterOk,
      List.enum, List.enumFrom, List.findIdx?_cons, List.filterMap_cons,
      List.find?_cons]
    decide
  unfold getMttrMetrics
  rw [hrows]
  norm_num [mttrMetricOf, dedupFirst, mttrGroupKey, asciiLower, lowerChar,
    round1, jsRound]
  decide

/-- C4 counterexample: for an alert whose history is fixed at day 0 then
open at day 5 — reachable by two ingestions — no alert has a first open
event followed by a first resolution event, so under the claim the query
would return no entry for the group; the code still returns one row, with
a negative average. -/
theorem getMttrMetrics_order_counterexample :
    getMttrMetrics mttrDb none =
      [{ repo := "r", severity := "high", avgDays := -5,
         resolvedCount := 1 }] ∧
    (∀ k ∈ alertKeys mttrHist, mttrQualifiesOrdered mttrHist k = false) ∧
    ((-5 : ℚ) < 0) ∧
    (saveAlerts (saveAlerts emptyDb "r" [baseAlert "r" 1 "fixed" "high"] 0)
      "r" [baseAlert "r" 1 "open" "high"] 5).history = mttrHist := by
  refine ⟨?_, by decide, by norm_num, by decide⟩
  have hrows : mttrJoinRows mttrDb.history none =
      [{ repo := "r", alertNumber := 1, severity := "high",
         elapsed := -5 }] := by
    norm_num [mttrJoinRows, mttrPhi, mttrDb, mttrHist, isOpenFor, isResFor,
      repoFilterOk, List.enum, List.enumFrom, List.findIdx?_cons,
      List.filterMap_cons, List.find?_cons]
    decide
  unfold getMttrMetrics
  rw [hrows]
  norm_num [mttrMetricOf, dedupFirst, mttrGroupKey, asciiLower, lowerChar,
    round1, jsRound]
  decide

/-! ### C3 -/

/-- C3: with alert 1 opened (critical) on day 0 and alert 2 opened
(critical) on day 1, the trend query reports one critical alert on day 1,
because it counts only events recorded on that exact day; the snapshot
the specification (and the function docstring) describe — most recent
open event on or before the day — contains two. -/
theorem getTrendData_same_day_only :
    getTrendData trendDb none =
      [{ day := 0, critical := 1, high := 0, medium := 0, low := 0 },
       { day := 1, critical := 1, high := 0, medium := 0, low := 0 }] ∧
    specTrendOpenCount trendHist none 1 "critical" = 2 ∧
    (1 : ℕ) ≠ 2 := by
  refine ⟨by decide, by decide, by decide⟩
